import Mathlib

/-!
# Verification of the Crucible Upstairs job-management core

A shallow embedding of the Upstairs coordination core
(`upstairs/src/downstairs.rs` and `upstairs/src/live_repair.rs`), together
with proofs about its retirement, acknowledgement, replay, reconciliation and
live-repair logic.

Conventions used throughout:

* Rust `u64` counters (job ids, flush numbers, generation numbers, byte
  counts) are modelled as `Nat`; none of the verified operations can
  overflow 64 bits from the initial values used (job ids start at 1000 and
  increase by one per allocation).
* Partial functions (Rust code that can `panic!`, `assert!`, or `unwrap`)
  are modelled with an `Option`/`Except` result; `none` models a panic.
* `BTreeMap`/`BTreeSet` are modelled as key-sorted association lists / sorted
  lists without duplicates; `AllocRingBuffer` is modelled as a list that
  grows by pushing at the end (the eviction of old entries at capacity 2048
  is not relevant to any verified property and is not modelled).
* Fields of the Rust structures that only carry logging, DTrace probes,
  statistics, TLS/socket configuration, or tokio channel plumbing
  (`log`, `cfg`, `stats`, `io_state_count`, `BlockReqWaiter`, `oneshot`
  channels) are elided; a `SocketAddr` is an abstract `Nat` token.
* The per-client logic (`DownstairsClient`, in `client.rs`) and the
  `ActiveJobs` dependency index (`active_jobs.rs`) are not part of the
  sources; where an operation of theirs is needed it is modelled from the
  specification, and each such definition carries a doc comment starting
  with `Modelled from the spec:`.
-/

namespace Crucible

/-- Downstairs job id (Rust newtype `JobId(u64)`). -/
abbrev JobId := Nat

/-- Error kind surfaced to the guest (Rust `CrucibleError`).  Only the
variants reachable from the verified operations are included; message
strings are elided but numeric payloads are kept. -/
inductive CrucibleError where
  /-- `IoError("{n} out of 3 downstairs failed to complete this IO")`;
  the count `n` is kept, the message text is elided. -/
  | IoError (failed : Nat)
  /-- `GenerationNumberTooLow(msg)`; the offending maximum generation and the
  requested generation are kept, the message text is elided. -/
  | GenerationNumberTooLow (found : Nat) (requested : Nat)
  | GenericError
  | UpstairsInactive
  | DecryptionError
  | SnapshotExistsAlready
  deriving DecidableEq, Repr

/-- Per-(job, client) IO state (Rust `IOState`). -/
inductive IOState where
  | New
  | InProgress
  | Done
  | Skipped
  | Error (e : CrucibleError)
  deriving DecidableEq, Repr

/-- `ClientData<T>`: one value per downstairs client (Rust `[T; 3]`). -/
structure ClientData (α : Type) where
  c0 : α
  c1 : α
  c2 : α
  deriving DecidableEq, Repr

namespace ClientData

/-- `ClientData::new(t)`: fill all three slots with the same value. -/
def new (a : α) : ClientData α := ⟨a, a, a⟩

/-- Indexing (`client_data[client_id]`). -/
def get (d : ClientData α) : Fin 3 → α
  | 0 => d.c0
  | 1 => d.c1
  | 2 => d.c2

/-- `client_data.insert(client_id, value)` / `client_data[cid] = value`. -/
def set (d : ClientData α) : Fin 3 → α → ClientData α
  | 0, a => { d with c0 := a }
  | 1, a => { d with c1 := a }
  | 2, a => { d with c2 := a }

/-- The three values as a list, in client order (`ClientId::iter()`). -/
def toList (d : ClientData α) : List α := [d.c0, d.c1, d.c2]

end ClientData

/-- The three client ids, in iteration order (`ClientId::iter()`). -/
def clientIds : List (Fin 3) := [0, 1, 2]

/-- One block write of a guest write request (`crucible_protocol::Write`).
The payload is a byte list; only `data.len()` is inspected by the
coordinator. Encryption contexts and hashes are elided. -/
structure BlockWrite where
  eid : Nat
  offset : Nat
  data : List Nat
  deriving DecidableEq, Repr

/-- One block read request (`ReadRequest { eid, offset }`). -/
structure ReadReq where
  eid : Nat
  offset : Nat
  deriving DecidableEq, Repr

/-- `SnapshotDetails`; the snapshot name is an abstract token. -/
structure SnapshotDetails where
  snapshot_name : Nat
  deriving DecidableEq, Repr

/-- The four reserved job ids for one extent's live repair
(`ExtentRepairIDs`). -/
structure ExtentRepairIDs where
  close_id : JobId
  repair_id : JobId
  noop_id : JobId
  reopen_id : JobId
  deriving DecidableEq, Repr

/-- Downstairs IO operation (Rust `IOop`).  Every variant carries its
dependency list.  A `SocketAddr` is an abstract `Nat` token. -/
inductive IOop where
  | Read (dependencies : List JobId) (requests : List ReadReq)
  | Write (dependencies : List JobId) (writes : List BlockWrite)
  | WriteUnwritten (dependencies : List JobId) (writes : List BlockWrite)
  | Flush (dependencies : List JobId) (flush_number : Nat) (gen_number : Nat)
      (snapshot_details : Option SnapshotDetails) (extent_limit : Option Nat)
  | ExtentClose (dependencies : List JobId) (extent : Nat)
  | ExtentFlushClose (dependencies : List JobId) (extent : Nat)
      (flush_number : Nat) (gen_number : Nat) (source_downstairs : Fin 3)
      (repair_downstairs : List (Fin 3))
  | ExtentLiveRepair (dependencies : List JobId) (extent : Nat)
      (source_downstairs : Fin 3) (source_repair_address : Nat)
      (repair_downstairs : List (Fin 3))
  | ExtentLiveReopen (dependencies : List JobId) (extent : Nat)
  | ExtentLiveNoOp (dependencies : List JobId)
  deriving DecidableEq, Repr

namespace IOop

/-- `IOop::deps()`. -/
def deps : IOop → List JobId
  | Read d _ => d
  | Write d _ => d
  | WriteUnwritten d _ => d
  | Flush d _ _ _ _ => d
  | ExtentClose d _ => d
  | ExtentFlushClose d _ _ _ _ _ => d
  | ExtentLiveRepair d _ _ _ _ => d
  | ExtentLiveReopen d _ => d
  | ExtentLiveNoOp d => d

/-- `matches!(work, IOop::Flush { .. })`. -/
def isFlush : IOop → Bool
  | Flush _ _ _ _ _ => true
  | _ => false

/-- `matches!(work, IOop::Write { .. })` (note: `WriteUnwritten` does NOT
match). -/
def isBareWrite : IOop → Bool
  | Write _ _ => true
  | _ => false

/-- Payload bytes of the job: `writes.iter().map(|w| w.data.len()).sum()`
for a `Write`/`WriteUnwritten`, `0` otherwise. -/
def writeBytes : IOop → Nat
  | Write _ ws => (ws.map (·.data.length)).foldl (· + ·) 0
  | WriteUnwritten _ ws => (ws.map (·.data.length)).foldl (· + ·) 0
  | _ => 0

/-- The extents touched by the operation, when the operation is bound to a
concrete extent set; `none` stands for a region-wide barrier (flush).
Derived from the requests/writes carried by the op. -/
def touchedExtents : IOop → Option (List Nat)
  | Read _ reqs => some ((reqs.map (·.eid)).dedup)
  | Write _ ws => some ((ws.map (·.eid)).dedup)
  | WriteUnwritten _ ws => some ((ws.map (·.eid)).dedup)
  | Flush _ _ _ _ _ => none
  | ExtentClose _ e => some [e]
  | ExtentFlushClose _ e _ _ _ _ => some [e]
  | ExtentLiveRepair _ e _ _ _ => some [e]
  | ExtentLiveReopen _ e => some [e]
  | ExtentLiveNoOp _ => none

end IOop

/-- One active downstairs job (Rust `DownstairsIO`; renamed because of local
naming restrictions).  The decrypted read payload `data` is kept abstract. -/
structure DownstairsJob where
  ds_id : JobId
  guest_id : Nat
  work : IOop
  state : ClientData IOState
  acked : Bool
  replay : Bool
  data : Option (List Nat)
  read_response_hashes : List Nat
  deriving DecidableEq, Repr

/-- Per-job state counts across the three clients (Rust `WorkCounts`). -/
structure WorkCounts where
  active : Nat
  error : Nat
  skipped : Nat
  done : Nat
  deriving DecidableEq, Repr

/-- Tally one client state into the counts (`New`/`InProgress` are
`active`). -/
def WorkCounts.tally (wc : WorkCounts) (s : IOState) : WorkCounts :=
  match s with
  | IOState.New => { wc with active := wc.active + 1 }
  | IOState.InProgress => { wc with active := wc.active + 1 }
  | IOState.Done => { wc with done := wc.done + 1 }
  | IOState.Skipped => { wc with skipped := wc.skipped + 1 }
  | IOState.Error _ => { wc with error := wc.error + 1 }

/-- Modelled from the spec: `DownstairsIO::state_count` (in the crate root,
not part of the sources) tallies the three per-client `IOState`s; `New` and
`InProgress` count as `active`, the other states into their own buckets
(spec §3 `IOState`, §4.3 ack rule counts). -/
def DownstairsJob.state_count (j : DownstairsJob) : WorkCounts :=
  j.state.toList.foldl WorkCounts.tally ⟨0, 0, 0, 0⟩

/-- Per-client lifecycle state (Rust `DsState`). -/
inductive DsState where
  | New
  | WaitActive
  | WaitQuorum
  | Repair
  | FailedRepair
  | Active
  | Offline
  | Faulted
  | Replacing
  | Replaced
  | LiveRepairReady
  | LiveRepair
  | Deactivated
  | Disabled
  deriving DecidableEq, Repr

/-- Region metadata reported by one client at activation
(per-extent flush numbers, generation numbers, dirty flags). -/
structure RegionMetadata where
  generation : List Nat
  flush_numbers : List Nat
  dirty : List Bool
  deriving DecidableEq, Repr

/-- Extent metadata returned by a live-repair close (`ExtentInfo`). -/
structure ExtentInfo where
  generation : Nat
  flush_number : Nat
  dirty : Bool
  deriving DecidableEq, Repr

/-- Insert into a sorted `Nat` list without duplicating (model of
`BTreeSet::insert`). -/
def setInsert (x : Nat) : List Nat → List Nat
  | [] => [x]
  | y :: ys =>
    if x < y then x :: y :: ys
    else if x = y then y :: ys
    else y :: setInsert x ys

/-- Per-client state kept by the Upstairs (Rust `DownstairsClient`, from
`client.rs`, which is not part of the sources).  Modelled from the spec
(§4.2): connection state, `last_flush`, skipped-job set, `extent_limit`,
reconcile metadata snapshot and live-repair extent info.  Connection
handles, stats and `io_state_count` are elided. -/
structure DownstairsClient where
  state : DsState
  last_flush : JobId
  skipped_jobs : List JobId
  extent_limit : Option Nat
  region_metadata : Option RegionMetadata
  repair_addr : Option Nat
  repair_info : Option ExtentInfo
  target_addr : Option Nat
  deriving DecidableEq, Repr

namespace DownstairsClient

/-- Modelled from the spec: `DownstairsClient::enqueue(job, last_repair_extent)`
"decides whether this client sees the job as `New` or `Skipped` based on
`DsState` and whether all touched extents are ≤ `extent_limit` (when under
repair)" (§4.2), where reservations extend the horizon to the most recent
reserved extent (§4.5: guest jobs are skipped "when their impacted extents
are strictly above `extent_limit` (and not covered by reservations)").
A faulted/replacing client skips every job.  Returns the updated client and
the `IOState` recorded for this client. -/
def enqueueJob (c : DownstairsClient) (ds_id : JobId)
    (touched : Option (List Nat)) (last_repair_extent : Option Nat) :
    DownstairsClient × IOState :=
  match c.state with
  | DsState.Faulted | DsState.Replacing | DsState.Replaced
  | DsState.LiveRepairReady =>
    ({ c with skipped_jobs := setInsert ds_id c.skipped_jobs },
      IOState.Skipped)
  | DsState.LiveRepair =>
    match touched, last_repair_extent with
    | some exts, some lim =>
      if exts.any (· ≤ lim) then (c, IOState.New)
      else
        ({ c with skipped_jobs := setInsert ds_id c.skipped_jobs },
          IOState.Skipped)
    | _, _ => (c, IOState.New)
  | _ => (c, IOState.New)

/-- Modelled from the spec: `DownstairsClient::skip_job` moves one job to
`Skipped` on this client and records it in the skipped set (§4.3 fault
threshold, §4.5 abort). -/
def skipJob (c : DownstairsClient) (cid : Fin 3) (j : DownstairsJob) :
    DownstairsClient × DownstairsJob :=
  ({ c with skipped_jobs := setInsert j.ds_id c.skipped_jobs },
    { j with state := j.state.set cid IOState.Skipped })

/-- Modelled from the spec: `DownstairsClient::replay_job` re-marks a
not-yet-flushed job `New` on this client so it is re-executed, setting the
job's `replay` flag, which suppresses the read-hash invariant (§4.3 Replay,
glossary "Replay"). -/
def replayJob (cid : Fin 3) (j : DownstairsJob) : DownstairsJob :=
  { j with state := j.state.set cid IOState.New, replay := true }

/-- Modelled from the spec: `DownstairsClient::abort_repair` returns the
repair target to `Faulted` (§4.5 Abort: "the repair target is returned to
`Faulted`"). -/
def abortRepair (c : DownstairsClient) : DownstairsClient :=
  { c with state := DsState.Faulted }

/-- Modelled from the spec: `DownstairsClient::reinitialize` restarts the IO
task and clears per-connection data; the lifecycle state of a client that
was `Offline` is unchanged here (the coordinator then replays its jobs,
§4.3 Replay). -/
def reinit (c : DownstairsClient) : DownstairsClient :=
  { c with repair_addr := none, repair_info := none }

end DownstairsClient

/-- Modelled from the spec: the ackability decision of
`DownstairsClient::process_io_completion` (§4.2: "Returns `true` exactly when
this completion transitions the job from non-ackable to ackable (§4.3 ack
rule)"), evaluated on the counts *after* recording this completion.
The per-op rule follows §4.3 and the concrete scenarios of §8:
a `Read` acks on its first success; a `Flush` "needs majority" — it acks on
its second success (§8 scenario 1) unless it carries a snapshot, which
"needs all three" (§8 scenario 2); a `Write` was already fast-acked at
submission; a `WriteUnwritten` acks on its second success (completion-acked,
mirroring the flush majority rule); repair ops ack through the
all-three-terminal rule of the coordinator. -/
def completionAckable (work : IOop) (wc : WorkCounts) (ok : Bool) : Bool :=
  if !ok then false
  else
    match work with
    | IOop.Read _ _ => wc.done = 1
    | IOop.Write _ _ => false
    | IOop.WriteUnwritten _ _ => wc.done = 2
    | IOop.Flush _ _ _ snap _ =>
      match snap with
      | some _ => wc.done = 3
      | none => wc.done = 2
    | _ => false

namespace DownstairsClient

/-- Modelled from the spec: `DownstairsClient::process_io_completion`
(§4.2).  Records the result on the job (`Done` on success, `Error(e)` on
failure), stores the first successful read payload for the bridge, stores a
returned `ExtentInfo` as this client's `repair_info`, updates `last_flush`
when this client completes a flush (a `Skipped` job "does not update that
client's `last_flush`", I7), and returns whether the job just became
ackable (`completionAckable`).  The read-hash comparison (I8) is a fatal
runtime check and is not modelled. -/
def processJobCompletion (c : DownstairsClient) (cid : Fin 3)
    (j : DownstairsJob) (result : Except CrucibleError (List Nat))
    (extent_info : Option ExtentInfo) :
    DownstairsClient × DownstairsJob × Bool :=
  match result with
  | Except.error e =>
    let j := { j with state := j.state.set cid (IOState.Error e) }
    (c, j, false)
  | Except.ok payload =>
    let j := { j with state := j.state.set cid IOState.Done }
    let j :=
      match j.work with
      | IOop.Read _ _ =>
        if j.data.isNone then { j with data := some payload } else j
      | _ => j
    let c :=
      match extent_info with
      | some ei => { c with repair_info := some ei }
      | none => c
    let c :=
      if j.work.isFlush then { c with last_flush := j.ds_id } else c
    (c, j, completionAckable j.work j.state_count true)

end DownstairsClient

/-! ## The active job map and its dependency index -/

/-- The contiguous extent range a guest request impacts (Rust
`ImpactedBlocks`, reduced to the extent granularity at which the verified
operations inspect it: a request covers the inclusive extent range
`[lo, hi]`, or nothing). -/
inductive ImpactedBlocks where
  | empty
  | range (lo : Nat) (hi : Nat)
  deriving DecidableEq, Repr

/-- `impacted_blocks.extents().into_iter().flatten()`: the touched extents in
increasing order. -/
def ImpactedBlocks.extentList : ImpactedBlocks → List Nat
  | ImpactedBlocks.empty => []
  | ImpactedBlocks.range lo hi => (List.range (hi + 1 - lo)).map (lo + ·)

/-- Whether the range contains extent `e`. -/
def ImpactedBlocks.containsExtent : ImpactedBlocks → Nat → Bool
  | ImpactedBlocks.empty, _ => false
  | ImpactedBlocks.range lo hi, e => lo ≤ e && e ≤ hi

/-- Insert into a key-sorted association list, replacing an existing binding
(model of `BTreeMap::insert`). -/
def mapInsert (k : Nat) (v : α) : List (Nat × α) → List (Nat × α)
  | [] => [(k, v)]
  | (k', v') :: rest =>
    if k < k' then (k, v) :: (k', v') :: rest
    else if k = k' then (k, v) :: rest
    else (k', v') :: mapInsert k v rest

/-- Lookup in an association list (model of `BTreeMap::get`). -/
def mapFind (k : Nat) : List (Nat × α) → Option α
  | [] => none
  | (k', v) :: rest => if k = k' then some v else mapFind k rest

/-- Remove a binding from an association list (model of
`BTreeMap::remove`). -/
def mapRemove (k : Nat) : List (Nat × α) → List (Nat × α)
  | [] => []
  | (k', v) :: rest =>
    if k = k' then rest else (k', v) :: mapRemove k rest

/-- Last (greatest) key of a key-sorted association list (model of
`BTreeMap::last_key_value().map(|(k, _)| *k)`). -/
def mapLastKey : List (Nat × α) → Option Nat
  | [] => none
  | [(k, _)] => some k
  | _ :: rest => mapLastKey rest

/-- The ordered active job map with its auxiliary dependency index (Rust
`ActiveJobs`, from `active_jobs.rs`, which is not part of the sources).
`jobs` is the `BTreeMap<JobId, DownstairsIO>` as a key-sorted association
list.  Modelled from the spec (§4.1): the structure "additionally maintains
an auxiliary index from extent → list of (JobId, kind, impacted range)";
here the index keeps, per extent, the reserved live-repair reopen id that
future guest jobs crossing the repair frontier must depend on (§4.5:
reserved IDs are added "as dependencies of the guest job"). -/
structure ActiveJobs where
  jobs : List (JobId × DownstairsJob)
  reserved_reopen : List (Nat × JobId)
  deriving DecidableEq, Repr

namespace ActiveJobs

def new : ActiveJobs := ⟨[], []⟩

/-- `ActiveJobs::get`. -/
def get? (aj : ActiveJobs) (k : JobId) : Option DownstairsJob :=
  mapFind k aj.jobs

/-- `ActiveJobs::insert` (fresh job ids are strictly increasing, so pushing
through the sorted insert keeps the map ordered). -/
def insert (aj : ActiveJobs) (k : JobId) (j : DownstairsJob) : ActiveJobs :=
  { aj with jobs := mapInsert k j aj.jobs }

/-- `ActiveJobs::remove`; the Rust version returns the removed job and
panics when it is absent. -/
def removeGet (aj : ActiveJobs) (k : JobId) :
    Option (DownstairsJob × ActiveJobs) :=
  match mapFind k aj.jobs with
  | none => none
  | some j => some (j, { aj with jobs := mapRemove k aj.jobs })

def isEmpty (aj : ActiveJobs) : Bool := aj.jobs.isEmpty

def len (aj : ActiveJobs) : Nat := aj.jobs.length

/-- Whether a job conflicts with a write over `blocks`: per §4.1,
`deps_for_write` returns "every prior job whose reads, writes, or flushes
touch any block in `blocks`" — a flush is a barrier for every extent. -/
def conflictsWithWrite (w : IOop) (blocks : ImpactedBlocks) : Bool :=
  match w.touchedExtents with
  | none => true
  | some exts => exts.any (blocks.containsExtent ·)

/-- Modelled from the spec: `ActiveJobs::deps_for_write(new_id, blocks)`
returns "every prior job whose reads, writes, or flushes touch any block in
`blocks`" (§4.1), plus every reserved repair reopen id covering a touched
extent (§4.5: the reserved IDs are added "as dependencies of the guest
job"). -/
def deps_for_write (aj : ActiveJobs) (ds_id : JobId)
    (blocks : ImpactedBlocks) : List JobId :=
  ((aj.jobs.filter
      (fun p => p.1 < ds_id && conflictsWithWrite p.2.work blocks)).map
    (·.1)) ++
    ((aj.reserved_reopen.filter
        (fun p => blocks.containsExtent p.1)).map (·.2))

/-- Whether a job conflicts with a read over `blocks`: per §4.1,
`deps_for_read` returns "every prior job whose writes (incl. live-repair
writes and flushes) touch any block in `blocks`"; a prior read does not
conflict with a read. -/
def conflictsWithRead (w : IOop) (blocks : ImpactedBlocks) : Bool :=
  match w with
  | IOop.Read _ _ => false
  | _ => conflictsWithWrite w blocks

/-- Modelled from the spec: `ActiveJobs::deps_for_read` (§4.1), plus
reserved reopen ids as for writes (§4.5). -/
def deps_for_read (aj : ActiveJobs) (ds_id : JobId)
    (blocks : ImpactedBlocks) : List JobId :=
  ((aj.jobs.filter
      (fun p =>
        p.1 < ds_id && conflictsWithRead p.2.work blocks)).map (·.1)) ++
    ((aj.reserved_reopen.filter
        (fun p => blocks.containsExtent p.1)).map (·.2))

/-- Modelled from the spec: `ActiveJobs::deps_for_flush(new_id)` — "the most
recent prior flush, plus every job issued after that flush" (§4.1); here
conservatively every prior active job, which contains that set. -/
def deps_for_flush (aj : ActiveJobs) (ds_id : JobId) : List JobId :=
  (aj.jobs.filter (fun p => p.1 < ds_id)).map (·.1)

/-- Modelled from the spec: `ActiveJobs::deps_for_repair(repair_ids, extent)`
returns "every prior job touching `extent`, plus the prior flush barrier"
(§4.1), and records the reserved reopen id in the extent index so that
every later guest job touching the extent depends on it (§4.5). -/
def deps_for_repair (aj : ActiveJobs) (ids : ExtentRepairIDs) (eid : Nat) :
    List JobId × ActiveJobs :=
  (((aj.jobs.filter
        (fun p =>
          conflictsWithWrite p.2.work (ImpactedBlocks.range eid eid))).map
      (·.1)),
    { aj with
        reserved_reopen :=
          mapInsert eid ids.reopen_id aj.reserved_reopen })

end ActiveJobs

/-! ## Reconciliation messages -/

/-- Per-extent repair decision of the mend algorithm (Rust `ExtentFix`):
a source client and the destination clients to overwrite. -/
structure ExtentFix where
  source : Fin 3
  dest : List (Fin 3)
  deriving DecidableEq, Repr

/-- The downstairs wire messages produced by reconciliation (the subset of
Rust `Message` that `convert_rc_to_messages` builds). -/
inductive Message where
  | ExtentFlush (repair_id : Nat) (extent_id : Nat) (client_id : Fin 3)
      (flush_number : Nat) (gen_number : Nat)
  | ExtentClose (repair_id : Nat) (extent_id : Nat)
  | ExtentRepair (repair_id : Nat) (extent_id : Nat)
      (source_client_id : Fin 3) (source_repair_address : Nat)
      (dest_clients : List (Fin 3))
  | ExtentReopen (repair_id : Nat) (extent_id : Nat)
  deriving DecidableEq, Repr

/-- One queued reconciliation work item (Rust `ReconcileIO`; renamed because
of local naming restrictions).  `ReconcileIO::new(id, msg)` starts with all
three clients `New`. -/
structure ReconcileOp where
  id : Nat
  op : Message
  state : ClientData IOState
  deriving DecidableEq, Repr

/-- `ReconcileIO::new`. -/
def ReconcileOp.mk' (id : Nat) (op : Message) : ReconcileOp :=
  ⟨id, op, ClientData.new IOState.New⟩

/-! ## Live repair state -/

/-- Live-repair phase (Rust `LiveRepairState`).  The `BlockReqWaiter`
completion handles carried by each phase are tokio oneshot channels and are
elided. -/
inductive LiveRepairState where
  | Closing (close_id : JobId) (repair_id : JobId) (noop_id : JobId)
      (reopen_id : JobId) (gw_repair_id : Nat) (gw_noop_id : Nat)
  | Repairing (repair_id : JobId) (noop_id : JobId) (reopen_id : JobId)
      (gw_noop_id : Nat)
  | Noop (noop_id : JobId) (reopen_id : JobId)
  | Reopening (reopen_id : JobId)
  | FinalFlush (flush_id : JobId)
  | Swapping
  deriving DecidableEq, Repr

/-- Data for an in-progress live repair (Rust `LiveRepairData`). -/
structure LiveRepairData where
  extent_count : Nat
  repair_downstairs : List (Fin 3)
  source_downstairs : Fin 3
  aborting_repair : Bool
  active_extent : Nat
  min_id : JobId
  repair_job_ids : List (Nat × (ExtentRepairIDs × List JobId))
  state : LiveRepairState
  deriving DecidableEq, Repr

/-- Guest-work bookkeeping used by the live-repair driver (only the id
counter and the map of outstanding guest jobs are modelled; `GtoS` payload
and the notification channels are elided). -/
structure GuestWork where
  next_gw : Nat
  active : List (Nat × JobId)
  deriving DecidableEq, Repr

/-- `gw.next_gw_id()`. -/
def GuestWork.next_gw_id (gw : GuestWork) : Nat × GuestWork :=
  (gw.next_gw, { gw with next_gw := gw.next_gw + 1 })

/-- The Upstairs activity state (Rust `UpstairsState`; only the variants the
verified operations inspect). -/
inductive UpstairsState where
  | Initializing
  | Active
  | Deactivating
  deriving DecidableEq, Repr

/-! ## The Downstairs coordinator -/

/-- The coordinator state (Rust struct `Downstairs`).  `cfg`, `log`, the
reconcile progress counters and the `reconcile_current_work` slot are
elided; `completed`/`completed_jobs` are the ring buffers of retired ids
and retired job summaries (a summary is represented by its job id). -/
structure Downstairs where
  clients : ClientData DownstairsClient
  ds_active : ActiveJobs
  write_bytes_outstanding : Nat
  next_id : JobId
  next_flush : Nat
  completed : List JobId
  completed_jobs : List JobId
  reconcile_task_list : List ReconcileOp
  ackable_work : List JobId
  repair : Option LiveRepairData
  deriving DecidableEq, Repr

namespace Downstairs

/-- `Downstairs::next_id`: post-incrementing job-id allocation. -/
def nextId (ds : Downstairs) : JobId × Downstairs :=
  (ds.next_id, { ds with next_id := ds.next_id + 1 })

/-- `Downstairs::next_flush_id`: post-incrementing flush number. -/
def next_flush_id (ds : Downstairs) : Nat × Downstairs :=
  (ds.next_flush, { ds with next_flush := ds.next_flush + 1 })

/-- `Downstairs::last_repair_extent`: the most recent extent with reserved
repair ids, or `None`. -/
def last_repair_extent (ds : Downstairs) : Option Nat :=
  match ds.repair with
  | none => none
  | some r => mapLastKey r.repair_job_ids

/-- `Downstairs::get_extent_under_repair`.  The outer `Option` models the
panic when two clients disagree on the extent under repair; the inner value
is the inclusive range `extent_limit ..= last_repair_extent`. -/
def get_extent_under_repair (ds : Downstairs) :
    Option (Option (Nat × Nat)) :=
  let step :
      Option (Option Nat) → DownstairsClient → Option (Option Nat) :=
    fun acc c =>
      match acc with
      | none => none
      | some cur =>
        match c.extent_limit with
        | none => some cur
        | some eur =>
          match cur with
          | none => some (some eur)
          | some prev => if prev = eur then some (some eur) else none
  match ds.clients.toList.foldl step (some none) with
  | none => none
  | some none => some none
  | some (some eur) =>
    some (some (eur, (ds.last_repair_extent).getD eur))

/-- `Downstairs::result`: aggregate the per-client states of an
acknowledged job into the value returned to the guest.  `none` models the
panic on an illegal `IOop::ExtentClose` in the work queue. -/
def result (job : DownstairsJob) : Option (Except CrucibleError Unit) :=
  let wc := job.state_count
  let bad : Option Bool :=
    match job.work with
    | IOop.Read _ _ => some (wc.error == 3)
    | IOop.Write _ _ => some (wc.skipped + wc.error > 1)
    | IOop.WriteUnwritten _ _ => some (wc.skipped + wc.error > 1)
    | IOop.Flush _ _ _ _ _ => some (wc.skipped + wc.error > 1)
    | IOop.ExtentClose _ _ => none
    | IOop.ExtentFlushClose _ _ _ _ _ _ =>
      some (wc.error ≥ 1 || wc.skipped > 1)
    | IOop.ExtentLiveRepair _ _ _ _ _ =>
      some (wc.error ≥ 1 || wc.skipped > 1)
    | IOop.ExtentLiveReopen _ _ => some (wc.error ≥ 1 || wc.skipped > 1)
    | IOop.ExtentLiveNoOp _ => some (wc.error ≥ 1 || wc.skipped > 1)
  match bad with
  | none => none
  | some b =>
    if b then
      some (Except.error (CrucibleError.IoError (wc.error + wc.skipped)))
    else some (Except.ok ())

/-- `Downstairs::is_flush`; the Rust version panics ("checked missing job")
when the job is not on the active list — handled by the caller below. -/
def isFlushJob (job : DownstairsJob) : Bool := job.work.isFlush

/-- First pass of `Downstairs::retire_check`: walk `ds_active` from the
front, stopping after the flush, marking to-be-retired jobs and pushing
them into the `completed` / `completed_jobs` rings.  Jobs that are still
active on some client or not yet acked are left on the queue.  `none`
models the asserts. -/
def retireWalk (f : JobId) :
    List (JobId × DownstairsJob) → List JobId → List JobId → List JobId →
    Option (List JobId × List JobId × List JobId)
  | [], retired, completed, cjobs => some (retired, completed, cjobs)
  | (id, job) :: rest, retired, completed, cjobs =>
    if id > f then some (retired, completed, cjobs)
    else
      let wc := job.state_count
      if wc.active ≠ 0 || !job.acked then
        retireWalk f rest retired completed cjobs
      else if ¬ (wc.error + wc.skipped + wc.done = 3) then none
      else if completed.contains id then none
      else if job.ds_id ≠ id then none
      else
        retireWalk f rest (retired ++ [id]) (completed ++ [id])
          (cjobs ++ [id])

/-- Second pass of `Downstairs::retire_check`: remove the retired jobs from
the active map, updating `write_bytes_outstanding` for retired writes.
`none` models the `checked_sub(...).unwrap()` underflow panic and the panic
of `ActiveJobs::remove` on a missing id. -/
def retireRemove :
    List JobId → ActiveJobs → Nat → Option (ActiveJobs × Nat)
  | [], aj, wbo => some (aj, wbo)
  | id :: rest, aj, wbo =>
    match aj.removeGet id with
    | none => none
    | some (job, aj') =>
      match job.work with
      | IOop.Write _ ws =>
        let b := (ws.map (·.data.length)).foldl (· + ·) 0
        if b ≤ wbo then retireRemove rest aj' (wbo - b) else none
      | IOop.WriteUnwritten _ ws =>
        let b := (ws.map (·.data.length)).foldl (· + ·) 0
        if b ≤ wbo then retireRemove rest aj' (wbo - b) else none
      | _ => retireRemove rest aj' wbo

/-- `skipped_jobs.retain(|&x| x >= ds_id)` for one client. -/
def trimSkipped (f : JobId) (c : DownstairsClient) : DownstairsClient :=
  { c with skipped_jobs := c.skipped_jobs.filter (fun x => f ≤ x) }

/-- `Downstairs::retire_check(ds_id)`.  Only a flush that has reached a
terminal state on all three clients retires jobs: every acked job at or
before the flush whose three client states are terminal is removed from
`ds_active`, recorded in the `completed`/`completed_jobs` rings, write
bytes of retired writes are released, and each client's skipped set is
trimmed to ids at or after the flush.  `none` models the panics/asserts. -/
def retire_check (ds : Downstairs) (ds_id : JobId) : Option Downstairs :=
  match ds.ds_active.get? ds_id with
  | none => none
  | some job =>
    if !isFlushJob job then some ds
    else
      let wc := job.state_count
      if wc.error + wc.skipped + wc.done = 3 then
        if ds.completed.contains ds_id then none
        else if wc.active ≠ 0 then none
        else
          match
            retireWalk ds_id ds.ds_active.jobs [] ds.completed
              ds.completed_jobs with
          | none => none
          | some (retired, completed, cjobs) =>
            match
              retireRemove retired ds.ds_active
                ds.write_bytes_outstanding with
            | none => none
            | some (aj, wbo) =>
              some { ds with
                ds_active := aj
                completed := completed
                completed_jobs := cjobs
                write_bytes_outstanding := wbo
                clients :=
                  ⟨trimSkipped ds_id ds.clients.c0,
                    trimSkipped ds_id ds.clients.c1,
                    trimSkipped ds_id ds.clients.c2⟩ }
      else some ds

/-- The per-client loop at the head of `Downstairs::enqueue`: offer the job
to each client in turn; each records `New` or `Skipped` into the job's
per-client state and the skipped ones are counted. -/
def enqueueClients (io : DownstairsJob)
    (clients : ClientData DownstairsClient)
    (last_repair_extent : Option Nat) :
    ClientData DownstairsClient × DownstairsJob × Nat :=
  let touched := io.work.touchedExtents
  let (c0, s0) := clients.c0.enqueueJob io.ds_id touched last_repair_extent
  let io := { io with state := io.state.set 0 s0 }
  let (c1, s1) := clients.c1.enqueueJob io.ds_id touched last_repair_extent
  let io := { io with state := io.state.set 1 s1 }
  let (c2, s2) := clients.c2.enqueueJob io.ds_id touched last_repair_extent
  let io := { io with state := io.state.set 2 s2 }
  let skipped :=
    [s0, s1, s2].countP (fun s => s = IOState.Skipped)
  (⟨c0, c1, c2⟩, io, skipped)

/-- `Downstairs::enqueue`: offer the job to the three clients, count the
skips, add write payload bytes to the backpressure counter, insert the job
into `ds_active`, and mark the job immediately ackable when it was skipped
everywhere or is a (fast-acked) `Write`.  `none` models the
`assert!(!job.acked)`. -/
def enqueue (ds : Downstairs) (io : DownstairsJob) : Option Downstairs :=
  let (clients, io, skipped) :=
    enqueueClients io ds.clients ds.last_repair_extent
  let wbo :=
    match io.work with
    | IOop.Write _ ws =>
      ds.write_bytes_outstanding +
        (ws.map (·.data.length)).foldl (· + ·) 0
    | IOop.WriteUnwritten _ ws =>
      ds.write_bytes_outstanding +
        (ws.map (·.data.length)).foldl (· + ·) 0
    | _ => ds.write_bytes_outstanding
  let is_write := io.work.isBareWrite
  let ds_id := io.ds_id
  let ds := { ds with
    clients := clients
    write_bytes_outstanding := wbo
    ds_active := ds.ds_active.insert ds_id io }
  if skipped = 3 || is_write then
    if io.acked then none
    else some { ds with ackable_work := setInsert ds_id ds.ackable_work }
  else some ds

/-- `Downstairs::reserve_repair_ids_for_extent(eid)`: a no-op if ids were
already reserved for this extent, otherwise reserve four fresh consecutive
job ids, compute (and register) the repair dependencies, and store the
tuple in `repair_job_ids`.  `none` models the `self.repair.unwrap()` panic
outside live-repair. -/
def reserve_repair_ids_for_extent (ds : Downstairs) (eid : Nat) :
    Option Downstairs :=
  match ds.repair with
  | none => none
  | some r =>
    if (mapFind eid r.repair_job_ids).isSome then some ds
    else
      let (close_id, ds) := ds.nextId
      let (repair_id, ds) := ds.nextId
      let (noop_id, ds) := ds.nextId
      let (reopen_id, ds) := ds.nextId
      let repair_ids : ExtentRepairIDs :=
        ⟨close_id, repair_id, noop_id, reopen_id⟩
      let (deps, aj) := ds.ds_active.deps_for_repair repair_ids eid
      some { ds with
        ds_active := aj
        repair := some { r with
          repair_job_ids :=
            mapInsert eid (repair_ids, deps) r.repair_job_ids } }

/-- The extent loop of `Downstairs::check_repair_ids_for_range`, carrying
the `future_repair` flag. -/
def checkRepairLoop (start stop : Nat) :
    List Nat → Bool → Downstairs → Option Downstairs
  | [], _, ds => some ds
  | eid :: rest, fut, ds =>
    if eid = start then checkRepairLoop start stop rest true ds
    else if start < eid ∧ (eid ≤ stop ∨ fut) then
      match ds.reserve_repair_ids_for_extent eid with
      | none => none
      | some ds' => checkRepairLoop start stop rest true ds'
    else checkRepairLoop start stop rest fut ds

/-- `Downstairs::check_repair_ids_for_range(impacted_blocks)`: reserve
repair ids for every impacted extent past the extent under repair once the
range has touched the extent under repair, an extent at or before the last
reserved one, or any extent after such a trigger. -/
def check_repair_ids_for_range (ds : Downstairs)
    (impacted_blocks : ImpactedBlocks) : Option Downstairs :=
  match ds.get_extent_under_repair with
  | none => none
  | some none => some ds
  | some (some (eurStart, eurStop)) =>
    checkRepairLoop eurStart eurStop impacted_blocks.extentList false ds

/-- `Downstairs::get_repair_ids(eid)`: take the reserved ids and
dependencies for the extent if there are any (removing them from
`repair_job_ids`), otherwise allocate four fresh consecutive ids and
compute (and register) the repair dependencies. -/
def get_repair_ids (ds : Downstairs) (eid : Nat) :
    (ExtentRepairIDs × List JobId) × Downstairs :=
  let removed :
      Option ((ExtentRepairIDs × List JobId) × Downstairs) :=
    match ds.repair with
    | none => none
    | some r =>
      match mapFind eid r.repair_job_ids with
      | none => none
      | some v =>
        some (v, { ds with
          repair := some { r with
            repair_job_ids := mapRemove eid r.repair_job_ids } })
  match removed with
  | some x => x
  | none =>
    let (close_id, ds) := ds.nextId
    let (repair_id, ds) := ds.nextId
    let (noop_id, ds) := ds.nextId
    let (reopen_id, ds) := ds.nextId
    let repair_ids : ExtentRepairIDs :=
      ⟨close_id, repair_id, noop_id, reopen_id⟩
    let (deps, aj) := ds.ds_active.deps_for_repair repair_ids eid
    ((repair_ids, deps), { ds with ds_active := aj })

/-- `Downstairs::submit_write`: reserve repair ids for a range crossing the
repair frontier, allocate the job id, compute write dependencies, build
the `Write`/`WriteUnwritten` op and enqueue it. -/
def submit_write (ds : Downstairs) (guest_id : Nat)
    (blocks : ImpactedBlocks) (writes : List BlockWrite)
    (is_write_unwritten : Bool) : Option (Downstairs × JobId) :=
  match ds.check_repair_ids_for_range blocks with
  | none => none
  | some ds =>
    let (ds_id, ds) := ds.nextId
    let dependencies := ds.ds_active.deps_for_write ds_id blocks
    let awrite :=
      if is_write_unwritten then IOop.WriteUnwritten dependencies writes
      else IOop.Write dependencies writes
    let io : DownstairsJob :=
      ⟨ds_id, guest_id, awrite, ClientData.new IOState.New, false, false,
        none, []⟩
    match ds.enqueue io with
    | none => none
    | some ds => some (ds, ds_id)

/-- `Downstairs::submit_read`. -/
def submit_read (ds : Downstairs) (guest_id : Nat)
    (blocks : ImpactedBlocks) (requests : List ReadReq) :
    Option (Downstairs × JobId) :=
  match ds.check_repair_ids_for_range blocks with
  | none => none
  | some ds =>
    let (ds_id, ds) := ds.nextId
    let dependencies := ds.ds_active.deps_for_read ds_id blocks
    let io : DownstairsJob :=
      ⟨ds_id, guest_id, IOop.Read dependencies requests,
        ClientData.new IOState.New, false, false, none, []⟩
    match ds.enqueue io with
    | none => none
    | some ds => some (ds, ds_id)

/-- `Downstairs::create_flush`. -/
def create_flush (ds_id : JobId) (dependencies : List JobId)
    (flush_number : Nat) (guest_id : Nat) (gen_number : Nat)
    (snapshot_details : Option SnapshotDetails)
    (extent_limit : Option Nat) : DownstairsJob :=
  ⟨ds_id, guest_id,
    IOop.Flush dependencies flush_number gen_number snapshot_details
      extent_limit,
    ClientData.new IOState.New, false, false, none, []⟩

/-- `Downstairs::submit_flush`. -/
def submit_flush (ds : Downstairs) (gw_id : Nat) (gen : Nat)
    (snapshot_details : Option SnapshotDetails) :
    Option (Downstairs × JobId) :=
  let (next_id, ds) := ds.nextId
  let (flush_id, ds) := ds.next_flush_id
  let dep := ds.ds_active.deps_for_flush next_id
  match ds.get_extent_under_repair with
  | none => none
  | some eur =>
    let extent_under_repair := eur.map (·.2)
    let fl :=
      create_flush next_id dep flush_id gw_id gen snapshot_details
        extent_under_repair
    match ds.enqueue fl with
    | none => none
    | some ds => some (ds, next_id)

/-- The metadata scan at the head of `Downstairs::collate_inner`: for each
client take `max(flush_numbers) + 1` and `max(generation) + 1` and keep the
overall maxima.  `none` models the `region_metadata.unwrap()` and
`.iter().max().unwrap()` panics. -/
def collateScan :
    List DownstairsClient → Nat → Nat → Option (Nat × Nat)
  | [], max_flush, max_gen => some (max_flush, max_gen)
  | c :: rest, max_flush, max_gen =>
    match c.region_metadata with
    | none => none
    | some rec =>
      match rec.flush_numbers.max?, rec.generation.max? with
      | some f, some g =>
        let mf := f + 1
        let mg := g + 1
        collateScan rest (if mf > max_flush then mf else max_flush)
          (if mg > max_gen then mg else max_gen)
      | _, _ => none

/-- The region-metadata scan and generation check of
`Downstairs::collate_inner` (the tail of that function — building the mend
list — is embedded separately via `convert_rc_to_messages`).  On success
returns the computed `(max_flush, max_gen)`; the error carries
`(max_gen, requested_gen)` (the Rust error is `GenerationNumberTooLow` with
a message built from those values; a requested generation of zero is
refused with the same error kind). -/
def collate_gen_check (ds : Downstairs) (gen : Nat) :
    Option (Except CrucibleError (Nat × Nat)) :=
  match collateScan ds.clients.toList 0 0 with
  | none => none
  | some (max_flush, max_gen) =>
    let requested_gen := gen
    if requested_gen = 0 then
      some (Except.error
        (CrucibleError.GenerationNumberTooLow max_gen requested_gen))
    else if requested_gen < max_gen then
      some (Except.error
        (CrucibleError.GenerationNumberTooLow max_gen requested_gen))
    else some (Except.ok (max_flush, max_gen))

/-- The extent loop of `Downstairs::convert_rc_to_messages`: each extent
needing repair contributes four serial reconciliation messages, with the
`ReconciliationId` advancing by one per message.  `none` models the
`repair_addr.unwrap()` panic. -/
def convertLoop (clients : ClientData DownstairsClient)
    (max_flush : Nat) (max_gen : Nat) :
    List (Nat × ExtentFix) → Nat → List ReconcileOp →
    Option (List ReconcileOp)
  | [], _, acc => some acc
  | (ext, ef) :: rest, rep_id, acc =>
    match (clients.get ef.source).repair_addr with
    | none => none
    | some repair =>
      let items :=
        [ReconcileOp.mk' rep_id
            (Message.ExtentFlush rep_id ext ef.source max_flush max_gen),
          ReconcileOp.mk' (rep_id + 1)
            (Message.ExtentClose (rep_id + 1) ext),
          ReconcileOp.mk' (rep_id + 2)
            (Message.ExtentRepair (rep_id + 2) ext ef.source repair
              ef.dest),
          ReconcileOp.mk' (rep_id + 3)
            (Message.ExtentReopen (rep_id + 3) ext)]
      convertLoop clients max_flush max_gen rest (rep_id + 4)
        (acc ++ items)

/-- `Downstairs::convert_rc_to_messages(rec_list, max_flush, max_gen)`.
The Rust `rec_list` is a `HashMap` drained in iteration order; the model
takes the drain order as a list. -/
def convert_rc_to_messages (ds : Downstairs)
    (rec_list : List (Nat × ExtentFix)) (max_flush : Nat) (max_gen : Nat) :
    Option Downstairs :=
  match
    convertLoop ds.clients max_flush max_gen rec_list 0
      ds.reconcile_task_list with
  | none => none
  | some tasks => some { ds with reconcile_task_list := tasks }

/-- The job walk of `Downstairs::replay_jobs`: jobs at or before the
client's last flush must already be `Done` there (`none` models the
assert), later jobs are re-marked `New` with the `replay` flag set. -/
def replayWalk (cid : Fin 3) (lf : JobId) :
    List (JobId × DownstairsJob) → Option (List (JobId × DownstairsJob))
  | [] => some []
  | (ds_id, job) :: rest =>
    if ds_id ≤ lf then
      if job.state.get cid = IOState.Done then
        match replayWalk cid lf rest with
        | none => none
        | some r => some ((ds_id, job) :: r)
      else none
    else
      match replayWalk cid lf rest with
      | none => none
      | some r => some ((ds_id, DownstairsClient.replayJob cid job) :: r)

/-- `Downstairs::replay_jobs(client_id)`. -/
def replay_jobs (ds : Downstairs) (client_id : Fin 3) : Option Downstairs :=
  let lf := (ds.clients.get client_id).last_flush
  match replayWalk client_id lf ds.ds_active.jobs with
  | none => none
  | some js =>
    some { ds with ds_active := { ds.ds_active with jobs := js } }

/-- `Downstairs::reinitialize(client_id)`: restart the client's IO task and,
if the client was `Offline`, replay all of its not-yet-flushed jobs.  (The
`auto_promote` argument only configures the restarted client task and is
elided.) -/
def reinit (ds : Downstairs) (client_id : Fin 3) : Option Downstairs :=
  let ds := { ds with
    clients :=
      ds.clients.set client_id
        ((ds.clients.get client_id).reinit) }
  if (ds.clients.get client_id).state = DsState.Offline then
    ds.replay_jobs client_id
  else some ds

/-- `Downstairs::process_io_completion_inner` (without the error/fault
handling that its caller `process_io_completion` performs afterwards):
apply the client's completion processing to the job, add the job to
`ackable_work` if the client reports it just became ackable, and then
either run the retirement check (already-acked job) or mark the job
ackable once all three clients have reached a terminal state.  `none`
models the `panic!("reqid is not active")`. -/
def process_io_completion_inner (ds : Downstairs) (ds_id : JobId)
    (client_id : Fin 3) (responses : Except CrucibleError (List Nat))
    (up_state : UpstairsState) (extent_info : Option ExtentInfo) :
    Option Downstairs :=
  match ds.ds_active.get? ds_id with
  | none => none
  | some job =>
    let deactivate := up_state = UpstairsState.Deactivating
    let (c, job, ackable) :=
      (ds.clients.get client_id).processJobCompletion client_id job
        responses extent_info
    let _ := deactivate
    let ds := { ds with
      clients := ds.clients.set client_id c
      ds_active :=
        { ds.ds_active with jobs := mapInsert ds_id job ds.ds_active.jobs } }
    let ds :=
      if ackable then
        { ds with ackable_work := setInsert ds_id ds.ackable_work }
      else ds
    if job.acked then ds.retire_check ds_id
    else
      let wc := job.state_count
      if wc.error + wc.skipped + wc.done = 3 then
        some { ds with ackable_work := setInsert ds_id ds.ackable_work }
      else some ds

/-- The job walk of `Downstairs::skip_all_jobs`: move every `New` or
`InProgress` job of the client to `Skipped`; acked jobs are queued for a
later retirement check, unacked jobs that just became all-terminal are
marked ackable.  Returns the rewritten job list, the updated client, the
retirement-check queue and the ackable additions. -/
def skipWalk (cid : Fin 3) (c : DownstairsClient) :
    List (JobId × DownstairsJob) →
    List (JobId × DownstairsJob) × DownstairsClient × List JobId ×
      List JobId
  | [] => ([], c, [], [])
  | (ds_id, job) :: rest =>
    match job.state.get cid with
    | IOState.New | IOState.InProgress =>
      let (c', job') := c.skipJob cid job
      let (js, cf, rc, ack) := skipWalk cid c' rest
      if job'.acked then
        ((ds_id, job') :: js, cf, ds_id :: rc, ack)
      else
        let wc := job'.state_count
        if wc.error + wc.skipped + wc.done = 3 then
          ((ds_id, job') :: js, cf, rc, ds_id :: ack)
        else ((ds_id, job') :: js, cf, rc, ack)
    | _ =>
      let (js, cf, rc, ack) := skipWalk cid c rest
      ((ds_id, job) :: js, cf, rc, ack)

/-- `Downstairs::skip_all_jobs(client_id)`: skip all pending jobs of the
client, run the queued retirement checks, and clear the client's
`extent_limit` (the client's new-job send queue is connection plumbing and
is elided). -/
def skip_all_jobs (ds : Downstairs) (client_id : Fin 3) :
    Option Downstairs :=
  let (js, c, rc, ack) :=
    skipWalk client_id (ds.clients.get client_id) ds.ds_active.jobs
  let ds := { ds with
    ds_active := { ds.ds_active with jobs := js }
    clients := ds.clients.set client_id c
    ackable_work := ack.foldl (fun s i => setInsert i s) ds.ackable_work }
  match rc.foldlM (fun d i => retire_check d i) ds with
  | none => none
  | some ds =>
    some { ds with
      clients :=
        ds.clients.set client_id
          { ds.clients.get client_id with extent_limit := none } }

/-- `Downstairs::abort_repair`: drop the live-repair data and, for every
client still in `LiveRepair`, skip its jobs and return it to `Faulted`.
`none` models the assert that some client is in `LiveRepair`. -/
def abort_repair (ds : Downstairs) : Option Downstairs :=
  if !(ds.clients.toList.any (fun c => c.state = DsState.LiveRepair)) then
    none
  else
    let ds := { ds with repair := none }
    clientIds.foldlM
      (fun ds i =>
        if (ds.clients.get i).state = DsState.LiveRepair then
          match ds.skip_all_jobs i with
          | none => none
          | some ds =>
            some { ds with
              clients :=
                ds.clients.set i ((ds.clients.get i).abortRepair) }
        else some ds)
      ds

/-- `Downstairs::create_noop_io`. -/
def create_noop_job (ds_id : JobId) (dependencies : List JobId)
    (gw_id : Nat) : DownstairsJob :=
  ⟨ds_id, gw_id, IOop.ExtentLiveNoOp dependencies,
    ClientData.new IOState.New, false, false, none, []⟩

/-- `Downstairs::create_reopen_io`. -/
def create_reopen_job (eid : Nat) (ds_id : JobId)
    (dependencies : List JobId) (gw_id : Nat) : DownstairsJob :=
  ⟨ds_id, gw_id, IOop.ExtentLiveReopen dependencies eid,
    ClientData.new IOState.New, false, false, none, []⟩

/-- `Downstairs::create_repair_io`. -/
def create_repair_job (ds_id : JobId) (dependencies : List JobId)
    (gw_id : Nat) (extent : Nat) (repair_address : Nat)
    (source_downstairs : Fin 3) (repair_downstairs : List (Fin 3)) :
    DownstairsJob :=
  ⟨ds_id, gw_id,
    IOop.ExtentLiveRepair dependencies extent source_downstairs
      repair_address repair_downstairs,
    ClientData.new IOState.New, false, false, none, []⟩

/-- `Downstairs::create_close_io` (allocates the next flush number). -/
def create_close_job (ds : Downstairs) (eid : Nat) (ds_id : JobId)
    (dependencies : List JobId) (gw_id : Nat) (gen : Nat)
    (source : Fin 3) (repair : List (Fin 3)) :
    DownstairsJob × Downstairs :=
  let (flush_number, ds) := ds.next_flush_id
  (⟨ds_id, gw_id,
      IOop.ExtentFlushClose dependencies eid flush_number gen source
        repair,
      ClientData.new IOState.New, false, false, none, []⟩,
    ds)

/-- `Downstairs::repair_or_noop`: compare the extent info gathered from the
close phase; submit an `ExtentLiveRepair` only to targets whose extent
differs from the source, otherwise a no-op.  `none` models the asserts and
the `repair_info`/`repair_addr` unwrap panics.  As in the Rust code, every
client's `repair_info` is cleared. -/
def repair_or_noop (ds : Downstairs) (extent : Nat) (repair_id : JobId)
    (repair_deps : List JobId) (gw_repair_id : Nat) (source : Fin 3)
    (repair : List (Fin 3)) : Option (DownstairsJob × Downstairs) :=
  if ¬ repair.length < 3 then none
  else
    match (ds.clients.get source).repair_info with
    | none => none
    | some good_ei =>
      let step : Option (List (Fin 3)) → Fin 3 → Option (List (Fin 3)) :=
        fun acc bad =>
          match acc with
          | none => none
          | some need =>
            match (ds.clients.get bad).repair_info with
            | none => none
            | some repair_ei =>
              let must :=
                repair_ei.dirty ∨
                  repair_ei.generation ≠ good_ei.generation ∨
                  repair_ei.flush_number ≠ good_ei.flush_number
              if must then some (need ++ [bad]) else some need
      match repair.foldl step (some []) with
      | none => none
      | some need_repair =>
        let clearInfo : DownstairsClient → DownstairsClient :=
          fun c => { c with repair_info := none }
        let ds := { ds with
          clients :=
            ⟨clearInfo ds.clients.c0, clearInfo ds.clients.c1,
              clearInfo ds.clients.c2⟩ }
        if need_repair.isEmpty then
          some (create_noop_job repair_id repair_deps gw_repair_id, ds)
        else
          match (ds.clients.get source).repair_addr with
          | none => none
          | some repair_address =>
            some
              (create_repair_job repair_id repair_deps gw_repair_id
                extent repair_address source need_repair,
                ds)

/-- The per-client loop of `Downstairs::enqueue_repair`: a faulted or
replacing client takes the job as `Skipped` immediately, everyone else as
`New`.  `none` models the assert that every slot arrives `New`. -/
def enqueueRepairClients (io : DownstairsJob)
    (clients : ClientData DownstairsClient) :
    Option (ClientData DownstairsClient × DownstairsJob) :=
  clientIds.foldlM
    (fun (acc : ClientData DownstairsClient × DownstairsJob) cid =>
      let (clients, io) := acc
      if io.state.get cid ≠ IOState.New then none
      else
        match (clients.get cid).state with
        | DsState.Faulted | DsState.Replaced | DsState.Replacing
        | DsState.LiveRepairReady =>
          some
            (clients.set cid
                { clients.get cid with
                    skipped_jobs :=
                      setInsert io.ds_id (clients.get cid).skipped_jobs },
              { io with state := io.state.set cid IOState.Skipped })
        | _ => some (clients, io))
    (clients, io)

/-- `Downstairs::enqueue_repair`: place a live-repair job on the work
queue; unlike `enqueue`, only faulted clients skip it and nothing becomes
ackable.  `none` also models the assert that the work is one of the four
live-repair ops. -/
def enqueue_repair (ds : Downstairs) (io : DownstairsJob) :
    Option Downstairs :=
  match enqueueRepairClients io ds.clients with
  | none => none
  | some (clients, io) =>
    let legal :=
      match io.work with
      | IOop.ExtentLiveReopen _ _ => true
      | IOop.ExtentFlushClose _ _ _ _ _ _ => true
      | IOop.ExtentLiveRepair _ _ _ _ _ => true
      | IOop.ExtentLiveNoOp _ => true
      | _ => false
    if !legal then none
    else
      some { ds with
        clients := clients
        ds_active := ds.ds_active.insert io.ds_id io }

/-- `Downstairs::create_and_enqueue_noop_io` (the `BlockReqWaiter` it
returns is a completion channel and is elided; the guest-work map records
the new guest job). -/
def create_and_enqueue_noop (ds : Downstairs) (gw : GuestWork)
    (deps : List JobId) (noop_id : JobId) (gw_noop_id : Nat) :
    Option (Downstairs × GuestWork) :=
  let nio := create_noop_job noop_id deps gw_noop_id
  let gw := { gw with active := mapInsert gw_noop_id noop_id gw.active }
  match ds.enqueue_repair nio with
  | none => none
  | some ds => some (ds, gw)

/-- `Downstairs::create_and_enqueue_repair_io`. -/
def create_and_enqueue_repair (ds : Downstairs) (gw : GuestWork)
    (eid : Nat) (deps : List JobId) (repair_id : JobId)
    (gw_repair_id : Nat) (source : Fin 3) (repair : List (Fin 3)) :
    Option (Downstairs × GuestWork) :=
  match repair_or_noop ds eid repair_id deps gw_repair_id source repair with
  | none => none
  | some (repair_io, ds) =>
    let gw :=
      { gw with active := mapInsert gw_repair_id repair_id gw.active }
    match ds.enqueue_repair repair_io with
    | none => none
    | some ds => some (ds, gw)

/-- `Downstairs::create_and_enqueue_reopen_io`. -/
def create_and_enqueue_reopen (ds : Downstairs) (gw : GuestWork)
    (eid : Nat) (deps : List JobId) (reopen_id : JobId)
    (gw_reopen_id : Nat) : Option (Downstairs × GuestWork) :=
  let reopen_io := create_reopen_job eid reopen_id deps gw_reopen_id
  let gw :=
    { gw with active := mapInsert gw_reopen_id reopen_id gw.active }
  match ds.enqueue_repair reopen_io with
  | none => none
  | some ds => some (ds, gw)

/-- `Downstairs::create_and_enqueue_close_io`. -/
def create_and_enqueue_close (ds : Downstairs) (gw : GuestWork)
    (eid : Nat) (gen : Nat) (deps : List JobId) (close_id : JobId)
    (gw_close_id : Nat) (source : Fin 3) (repair : List (Fin 3)) :
    Option (Downstairs × GuestWork) :=
  let (close_io, ds) :=
    create_close_job ds eid close_id deps gw_close_id gen source repair
  let gw :=
    { gw with active := mapInsert gw_close_id close_id gw.active }
  match ds.enqueue_repair close_io with
  | none => none
  | some ds => some (ds, gw)

/-- `Downstairs::begin_repair_for(extent, aborting, ...)`: claim the four
job ids for the extent (via `get_repair_ids`), set the repair targets'
`extent_limit`, enqueue the reopen and close jobs (as no-ops when
aborting), and return the `Closing` phase.  `none` models the invariant
asserts at the head of the function. -/
def begin_repair_for (ds : Downstairs) (gw : GuestWork) (extent : Nat)
    (aborting : Bool) (repair_downstairs : List (Fin 3))
    (source_downstairs : Fin 3) (up_state : UpstairsState)
    (generation : Nat) :
    Option (Downstairs × GuestWork × LiveRepairState) :=
  if up_state ≠ UpstairsState.Active then none
  else if (ds.clients.get source_downstairs).state ≠ DsState.Active then
    none
  else if
      ¬ (repair_downstairs.all
        (fun c =>
          (ds.clients.get c).state = DsState.LiveRepair &&
            (if 0 < extent then
              (ds.clients.get c).extent_limit = some (extent - 1)
            else (ds.clients.get c).extent_limit = none))) then
    none
  else
    let ds := { ds with
      clients :=
        repair_downstairs.foldl
          (fun cl c =>
            cl.set c { cl.get c with extent_limit := some extent })
          ds.clients }
    let (gw_close_id, gw) := gw.next_gw_id
    let (gw_repair_id, gw) := gw.next_gw_id
    let (gw_noop_id, gw) := gw.next_gw_id
    let (gw_reopen_id, gw) := gw.next_gw_id
    let ((extent_repair_ids, close_deps), ds) := ds.get_repair_ids extent
    let close_id := extent_repair_ids.close_id
    let repair_id := extent_repair_ids.repair_id
    let noop_id := extent_repair_ids.noop_id
    let reopen_id := extent_repair_ids.reopen_id
    let reopenStep :=
      if aborting then
        create_and_enqueue_noop ds gw [noop_id] reopen_id gw_reopen_id
      else
        create_and_enqueue_reopen ds gw extent [noop_id] reopen_id
          gw_reopen_id
    match reopenStep with
    | none => none
    | some (ds, gw) =>
      let closeStep :=
        if aborting then
          create_and_enqueue_noop ds gw close_deps close_id gw_close_id
        else
          create_and_enqueue_close ds gw extent generation close_deps
            close_id gw_close_id source_downstairs repair_downstairs
      match closeStep with
      | none => none
      | some (ds, gw) =>
        some (ds, gw,
          LiveRepairState.Closing close_id repair_id noop_id reopen_id
            gw_repair_id gw_noop_id)

/-- `Downstairs::on_live_repair(r, gw, up_state, generation)`: drive the
live-repair state machine one step on the result of the currently awaited
repair job.  As in the Rust code, the `LiveRepairData` is *taken out* of
`self.repair` for the duration of the call and put back at the end — so
any reads of `self.repair` from the functions called in between
(`get_repair_ids`, `last_repair_extent`, ...) see `None`.  `none` models
the panic on the transient `Swapping` state and the panics of the callees.
On a successful final flush, `DownstairsClient::finish_repair` is modelled
from the spec (§4.2: `LiveRepair → Active` ends the repair cycle): the
repair targets return to `Active` with their `extent_limit` cleared. -/
def on_live_repair (ds : Downstairs) (gw : GuestWork)
    (r : Except CrucibleError Unit) (up_state : UpstairsState)
    (generation : Nat) : Option (Downstairs × GuestWork) :=
  match ds.repair with
  | none => some (ds, gw)
  | some repair =>
    let ds := { ds with repair := none }
    let repair :=
      match r with
      | Except.ok _ => repair
      | Except.error _ => { repair with aborting_repair := true }
    match repair.state with
    | LiveRepairState.Closing close_id repair_id noop_id reopen_id
        gw_repair_id gw_noop_id =>
      let step :=
        if repair.aborting_repair then
          create_and_enqueue_noop ds gw [close_id] repair_id gw_repair_id
        else
          create_and_enqueue_repair ds gw repair.active_extent [close_id]
            repair_id gw_repair_id repair.source_downstairs
            repair.repair_downstairs
      match step with
      | none => none
      | some (ds, gw) =>
        some ({ ds with
          repair := some { repair with
            state :=
              LiveRepairState.Repairing repair_id noop_id reopen_id
                gw_noop_id } }, gw)
    | LiveRepairState.Repairing repair_id noop_id reopen_id gw_noop_id =>
      match create_and_enqueue_noop ds gw [repair_id] noop_id gw_noop_id
        with
      | none => none
      | some (ds, gw) =>
        some ({ ds with
          repair := some { repair with
            state := LiveRepairState.Noop noop_id reopen_id } }, gw)
    | LiveRepairState.Noop _noop_id reopen_id =>
      some ({ ds with
        repair := some { repair with
          state := LiveRepairState.Reopening reopen_id } }, gw)
    | LiveRepairState.Reopening _ =>
      let repair :=
        { repair with active_extent := repair.active_extent + 1 }
      let finished := repair.active_extent = repair.extent_count
      let have_reserved_jobs :=
        (mapFind repair.active_extent repair.repair_job_ids).isSome
      if finished ∨ (repair.aborting_repair ∧ !have_reserved_jobs) then
        let (gw_id, gw) := gw.next_gw_id
        match ds.submit_flush gw_id generation none with
        | none => none
        | some (ds, flush_id) =>
          let gw :=
            { gw with active := mapInsert gw_id flush_id gw.active }
          some ({ ds with
            repair := some { repair with
              state := LiveRepairState.FinalFlush flush_id } }, gw)
      else
        match
          begin_repair_for ds gw repair.active_extent
            repair.aborting_repair repair.repair_downstairs
            repair.source_downstairs up_state generation with
        | none => none
        | some (ds, gw, st) =>
          some ({ ds with repair := some { repair with state := st } },
            gw)
    | LiveRepairState.FinalFlush _ =>
      if repair.aborting_repair then
        match ds.abort_repair with
        | none => none
        | some ds => some (ds, gw)
      else
        some ({ ds with
          clients :=
            repair.repair_downstairs.foldl
              (fun cl c =>
                cl.set c
                  { cl.get c with
                      state := DsState.Active, extent_limit := none })
              ds.clients }, gw)
    | LiveRepairState.Swapping => none

end Downstairs

/-! ## Statement-support definitions -/

/-- The retirement condition of `retire_check`: a job at or before the
flush, acked, with all three client states terminal. -/
def retirable (f : JobId) (p : JobId × DownstairsJob) : Bool :=
  decide (p.1 ≤ f) && p.2.acked && decide (p.2.state_count.active = 0)

/-- Payload bytes of a job, as counted by `retire_check` when releasing
`write_bytes_outstanding`: the data lengths of a `Write`/`WriteUnwritten`,
zero for everything else. -/
def jobBytes (j : DownstairsJob) : Nat :=
  match j.work with
  | IOop.Write _ ws => (ws.map (·.data.length)).foldl (· + ·) 0
  | IOop.WriteUnwritten _ ws => (ws.map (·.data.length)).foldl (· + ·) 0
  | _ => 0

/-- Total payload bytes of the jobs a `retire_check(f)` retires. -/
def retiredBytes (f : JobId) (l : List (JobId × DownstairsJob)) : Nat :=
  ((l.filter (retirable f)).map (fun p => jobBytes p.2)).sum

/-- The repair-reservation promise of `reserve_repair_ids_for_extent`:
extent `e` holds a reserved 4-tuple of consecutive job ids, all already
allocated (below `next_id`), and its reopen id is registered in the
dependency index so that later guest jobs touching `e` depend on it. -/
def hasReservedIds (ds : Downstairs) (e : Nat) : Prop :=
  ∃ r c deps, ds.repair = some r ∧
    mapFind e r.repair_job_ids =
      some (⟨c, c + 1, c + 2, c + 3⟩, deps) ∧
    c + 3 < ds.next_id ∧
    mapFind e ds.ds_active.reserved_reopen = some (c + 3)

/-- The four live-repair ops whose guest result is computed by
`Downstairs::result`. -/
def isLiveRepairOp : IOop → Bool
  | IOop.ExtentFlushClose _ _ _ _ _ _ => true
  | IOop.ExtentLiveRepair _ _ _ _ _ => true
  | IOop.ExtentLiveReopen _ _ => true
  | IOop.ExtentLiveNoOp _ => true
  | _ => false

/-- The four-message reconciliation sequence per extent as the
specification words it (§4.4 step 3: "Expand each entry into a four-message
sequence per extent, queued serially: `ExtentFlush(source) →
ExtentClose(all) → ExtentRepair(source → dests) → ExtentReopen(all)`", with
the `ReconciliationId` increasing by one per message).  Used only to state
the reconciliation-expansion property; `addrOf` gives each client's repair
address. -/
def specReconcileExpansion (addrOf : Fin 3 → Nat) (max_flush : Nat)
    (max_gen : Nat) :
    List (Nat × ExtentFix) → Nat → List ReconcileOp
  | [], _ => []
  | (ext, ef) :: rest, rep_id =>
    [ReconcileOp.mk' rep_id
        (Message.ExtentFlush rep_id ext ef.source max_flush max_gen),
      ReconcileOp.mk' (rep_id + 1)
        (Message.ExtentClose (rep_id + 1) ext),
      ReconcileOp.mk' (rep_id + 2)
        (Message.ExtentRepair (rep_id + 2) ext ef.source (addrOf ef.source)
          ef.dest),
      ReconcileOp.mk' (rep_id + 3)
        (Message.ExtentReopen (rep_id + 3) ext)] ++
      specReconcileExpansion addrOf max_flush max_gen rest (rep_id + 4)

/-! ## Concrete states used to evaluate the model -/

/-- A healthy `Active` client. -/
def exClient : DownstairsClient :=
  ⟨DsState.Active, 0, [], none, none, some 7, none, some 1⟩

/-- A fresh coordinator with three healthy clients (`Downstairs::new`
starts `next_id` at 1000 and `next_flush` at 0). -/
def exDs : Downstairs :=
  ⟨ClientData.new exClient, ActiveJobs.new, 0, 1000, 0, [], [], [], [],
    none⟩

/-- The coordinator after submitting a two-byte guest `Write` to `exDs`:
job 1000 is on the queue, `New` everywhere, and fast-acked. -/
def fastAckDs : Downstairs :=
  { exDs with
    next_id := 1001
    write_bytes_outstanding := 2
    ds_active :=
      { jobs :=
          [(1000,
            ⟨1000, 10, IOop.Write [] [⟨0, 0, [1, 2]⟩],
              ClientData.new IOState.New, false, false, none, []⟩)]
        reserved_reopen := [] }
    ackable_work := [1000] }

/-- The coordinator after submitting the same two bytes as a
`WriteUnwritten` to `exDs`: job 1000 is on the queue but *not* ackable. -/
def wuDs : Downstairs :=
  { exDs with
    next_id := 1001
    write_bytes_outstanding := 2
    ds_active :=
      { jobs :=
          [(1000,
            ⟨1000, 10, IOop.WriteUnwritten [] [⟨0, 0, [1, 2]⟩],
              ClientData.new IOState.New, false, false, none, []⟩)]
        reserved_reopen := [] }
    ackable_work := [] }

/-- A coordinator holding a single in-flight non-snapshot flush (job 1000,
in progress on all three clients, not acked). -/
def flushDs : Downstairs :=
  { exDs with
    next_id := 1001
    ds_active :=
      { jobs :=
          [(1000,
            ⟨1000, 0, IOop.Flush [] 10 0 none none,
              ClientData.new IOState.InProgress, false, false, none, []⟩)]
        reserved_reopen := [] } }

/-- The flush of `flushDs` after one successful completion (client 0). -/
def flushStep1 : Option Downstairs :=
  Downstairs.process_io_completion_inner flushDs 1000 0 (Except.ok [])
    UpstairsState.Active none

/-- ... and after a second successful completion (client 1); the third
client has not answered yet. -/
def flushStep2 : Option Downstairs :=
  match flushStep1 with
  | none => none
  | some ds =>
    Downstairs.process_io_completion_inner ds 1000 1 (Except.ok [])
      UpstairsState.Active none

/-- A retired-write scenario: an acked, everywhere-done write (1000, two
payload bytes), an acked, everywhere-done flush (1001), and a later read
(1002) still in flight.  Client 0 carries a skipped-set straddling the
flush. -/
def retireDs : Downstairs :=
  { exDs with
    next_id := 1003
    write_bytes_outstanding := 2
    clients :=
      ⟨{ exClient with skipped_jobs := [998, 1001] }, exClient, exClient⟩
    ds_active :=
      { jobs :=
          [(1000,
            ⟨1000, 0, IOop.Write [] [⟨0, 0, [5, 5]⟩],
              ClientData.new IOState.Done, true, false, none, []⟩),
            (1001,
              ⟨1001, 1, IOop.Flush [1000] 10 0 none none,
                ClientData.new IOState.Done, true, false, none, []⟩),
            (1002,
              ⟨1002, 2, IOop.Read [] [⟨0, 0⟩],
                ClientData.new IOState.InProgress, false, false, none,
                []⟩)]
        reserved_reopen := [] } }

/-- A replay scenario: client 1 is `Offline` with `last_flush = 1000`; job
1000 is done everywhere, job 1001 is still in progress on client 1. -/
def replayDs : Downstairs :=
  { exDs with
    next_id := 1002
    clients :=
      ⟨exClient,
        { exClient with state := DsState.Offline, last_flush := 1000 },
        exClient⟩
    ds_active :=
      { jobs :=
          [(1000,
            ⟨1000, 0, IOop.Write [] [⟨0, 0, [5]⟩],
              ClientData.new IOState.Done, true, false, none, []⟩),
            (1001,
              ⟨1001, 1, IOop.Read [] [⟨0, 0⟩],
                ⟨IOState.Done, IOState.InProgress, IOState.Done⟩, true,
                false, none, []⟩)]
        reserved_reopen := [] } }

/-- A read that failed on all three clients. -/
def readJobAllErr : DownstairsJob :=
  ⟨1000, 0, IOop.Read [] [⟨0, 0⟩],
    ClientData.new (IOState.Error CrucibleError.GenericError), true, false,
    none, []⟩

/-- A live-repair no-op that was skipped on two clients and done on one. -/
def noopJobTwoSkips : DownstairsJob :=
  ⟨1001, 1, IOop.ExtentLiveNoOp [],
    ⟨IOState.Skipped, IOState.Done, IOState.Skipped⟩, true, false, none,
    []⟩

/-- Three clients whose region metadata all report generation 0 and flush
number 0 on a single extent, so `max_gen = 1` and `max_flush = 1`. -/
def collateDs : Downstairs :=
  { exDs with
    clients :=
      ClientData.new
        { exClient with
            region_metadata := some ⟨[0], [0], [false]⟩ } }

/-- A live repair of extent 0 in its `Closing` phase (jobs 1000–1003),
client 1 the repair target, client 0 the source; no reservations yet. -/
def repairDs : Downstairs :=
  { exDs with
    next_id := 1004
    clients :=
      ⟨exClient,
        { exClient with
            state := DsState.LiveRepair, extent_limit := some 0 },
        exClient⟩
    repair :=
      some
        ⟨3, [1], 0, false, 0, 1000, [],
          LiveRepairState.Closing 1000 1001 1002 1003 1 2⟩ }

/-- A live repair of extent 0 in its `Noop` phase, with the four-tuple
`(1004, 1005, 1006, 1007)` already reserved for extent 1 (a guest job
spanning extents 0–1 promised those ids as dependencies). -/
def abortDs : Downstairs :=
  { exDs with
    next_id := 1020
    clients :=
      ⟨exClient,
        { exClient with
            state := DsState.LiveRepair, extent_limit := some 0 },
        exClient⟩
    repair :=
      some
        ⟨3, [1], 0, false, 0, 1000,
          [(1, (⟨1004, 1005, 1006, 1007⟩, []))],
          LiveRepairState.Noop 1002 1003⟩ }

/-- Guest-work bookkeeping for the live-repair evaluation. -/
def abortGw : GuestWork := ⟨10, []⟩

/-- Feeding the `abortDs` repair an error in the `Noop` phase and then the
next completion: the resulting coordinator state, per the embedded
`on_live_repair`. -/
def abortRun : Option (Downstairs × GuestWork) :=
  match
    Downstairs.on_live_repair abortDs abortGw
      (Except.error CrucibleError.GenericError) UpstairsState.Active 5 with
  | none => none
  | some (ds, gw) =>
    Downstairs.on_live_repair ds gw (Except.ok ()) UpstairsState.Active 5

/-- A mend list for two extents: extent 3 repaired from client 0, extent 7
from client 2. -/
def mendList : List (Nat × ExtentFix) :=
  [(3, ⟨0, [1, 2]⟩), (7, ⟨2, [0]⟩)]

/-- A live repair with ids `(1004, 1005, 1006, 1007)` reserved for
extent 2. -/
def reservedDs : Downstairs :=
  { exDs with
    next_id := 1008
    clients :=
      ⟨exClient,
        { exClient with
            state := DsState.LiveRepair, extent_limit := some 0 },
        exClient⟩
    repair :=
      some
        ⟨3, [1], 0, false, 0, 1000,
          [(2, (⟨1004, 1005, 1006, 1007⟩, [1003]))],
          LiveRepairState.Noop 1002 1003⟩ }

/-- The coordinator after submitting, on `repairDs` (extent 0 under
repair, no reservations yet), a guest write spanning extents 0–2. -/
def spanWriteDs : Downstairs :=
  ((Downstairs.submit_write repairDs 10 (ImpactedBlocks.range 0 2)
        [⟨0, 0, [7]⟩] false).map Prod.fst).getD exDs

/-! ## Helper lemmas -/

theorem mem_setInsert (x y : Nat) (l : List Nat) :
    x ∈ setInsert y l ↔ x = y ∨ x ∈ l := by
  induction l with
  | nil => simp [setInsert]
  | cons z zs ih =>
    simp only [setInsert]
    split
    · simp [List.mem_cons]
    · split
      · rename_i h1 h2
        subst h2
        simp only [List.mem_cons]
        tauto
      · simp only [List.mem_cons, ih]
        tauto

theorem mapFind_insert_self (k : Nat) (v : α) (l : List (Nat × α)) :
    mapFind k (mapInsert k v l) = some v := by
  induction l with
  | nil => simp [mapInsert, mapFind]
  | cons p ps ih =>
    simp only [mapInsert]
    split
    · simp [mapFind]
    · split
      · simp [mapFind]
      · rename_i h1 h2
        have : k ≠ p.1 := fun h => h2 h
        simp [mapFind, this, ih]

theorem mapFind_insert_ne (k k' : Nat) (v : α) (l : List (Nat × α))
    (h : k ≠ k') : mapFind k (mapInsert k' v l) = mapFind k l := by
  induction l with
  | nil => simp [mapInsert, mapFind, h]
  | cons p ps ih =>
    simp only [mapInsert]
    split
    · simp [mapFind, h]
    · split
      · rename_i h1 h2
        have hne : k ≠ p.1 := h2 ▸ h
        simp [mapFind, h, hne]
      · simp only [mapFind, ih]

theorem mem_of_mapFind (k : Nat) (v : α) (l : List (Nat × α))
    (h : mapFind k l = some v) : (k, v) ∈ l := by
  induction l with
  | nil => simp [mapFind] at h
  | cons p ps ih =>
    simp only [mapFind] at h
    split at h
    · rename_i hk
      cases h
      obtain ⟨p1, p2⟩ := p
      subst hk
      exact List.mem_cons_self _ _
    · exact List.mem_cons_of_mem _ (ih h)

theorem mapFind_remove_self (k : Nat) (l : List (Nat × α))
    (hnd : (l.map (·.1)).Nodup) :
    mapFind k (mapRemove k l) = none := by
  induction l with
  | nil => simp [mapRemove, mapFind]
  | cons p ps ih =>
    simp only [List.map_cons, List.nodup_cons] at hnd
    simp only [mapRemove]
    split
    · rename_i hk
      subst hk
      -- k is not a key of ps
      clear ih
      induction ps with
      | nil => simp [mapFind]
      | cons q qs ih2 =>
        simp only [mapFind]
        split
        · rename_i hq
          exfalso
          exact hnd.1 (by simp [hq])
        · exact ih2 ⟨fun hh => hnd.1 (by simp [hh]), hnd.2.of_cons⟩
    · rename_i hk
      simp only [mapFind]
      split
      · rename_i hq
        exact absurd hq hk
      · exact ih hnd.2

theorem mapLastKey_cons_cons (p q : Nat × α) (qs : List (Nat × α)) :
    mapLastKey (p :: q :: qs) = mapLastKey (q :: qs) := rfl

theorem mapLastKey_mem_le (l : List (Nat × α))
    (hs : List.Chain' (fun a b => a.1 < b.1) l) :
    ∀ p ∈ l, ∃ m, mapLastKey l = some m ∧ p.1 ≤ m := by
  induction l with
  | nil => simp
  | cons a as ih =>
    intro p hp
    cases as with
    | nil =>
      simp only [List.mem_singleton] at hp
      subst hp
      obtain ⟨p1, p2⟩ := p
      exact ⟨p1, rfl, le_refl _⟩
    | cons q qs =>
      have hchain := List.chain'_cons.mp hs
      rcases List.mem_cons.mp hp with h | h
      · obtain ⟨m, hm, hle⟩ := ih hchain.2 q (by simp)
        refine ⟨m, by rw [mapLastKey_cons_cons]; exact hm, ?_⟩
        subst h
        have := hchain.1
        omega
      · obtain ⟨m, hm, hle⟩ := ih hchain.2 p h
        exact ⟨m, by rw [mapLastKey_cons_cons]; exact hm, hle⟩

theorem tally_total (l : List IOState) (wc : WorkCounts) :
    (l.foldl WorkCounts.tally wc).active +
        (l.foldl WorkCounts.tally wc).error +
        (l.foldl WorkCounts.tally wc).skipped +
        (l.foldl WorkCounts.tally wc).done =
      wc.active + wc.error + wc.skipped + wc.done + l.length := by
  induction l generalizing wc with
  | nil => simp
  | cons s ss ih =>
    cases s <;> simp [List.foldl_cons, WorkCounts.tally, ih] <;> omega

/-- The four buckets of `state_count` always add up to the three
clients. -/
theorem state_count_total (j : DownstairsJob) :
    j.state_count.active + j.state_count.error + j.state_count.skipped +
        j.state_count.done = 3 := by
  have := tally_total j.state.toList ⟨0, 0, 0, 0⟩
  simp only [DownstairsJob.state_count]
  simpa [ClientData.toList] using this

theorem tally_skipped (l : List IOState) (wc : WorkCounts) :
    (l.foldl WorkCounts.tally wc).skipped =
      wc.skipped + l.countP (fun s => s = IOState.Skipped) := by
  induction l generalizing wc with
  | nil => simp
  | cons s ss ih =>
    cases s <;>
      simp [List.foldl_cons, WorkCounts.tally, ih, List.countP_cons] <;>
      omega

theorem tally_done (l : List IOState) (wc : WorkCounts) :
    (l.foldl WorkCounts.tally wc).done =
      wc.done + l.countP (fun s => s = IOState.Done) := by
  induction l generalizing wc with
  | nil => simp
  | cons s ss ih =>
    cases s <;>
      simp [List.foldl_cons, WorkCounts.tally, ih, List.countP_cons] <;>
      omega

/-! ## C5: the guest-result rule of Downstairs::result -/

/-- C5: for every job, `Downstairs::result` returns an `IoError` for a
`Read` if and only if all three clients reported `Error`, and for each of
the four live-repair ops (`ExtentFlushClose`, `ExtentLiveRepair`,
`ExtentLiveReopen`, `ExtentLiveNoOp`) if and only if at least one client
reported `Error` or more than one client was `Skipped`; otherwise those
ops return `Ok`. -/
theorem result_io_error_rule (job : DownstairsJob) :
    ((∃ d rs, job.work = IOop.Read d rs) →
      (Downstairs.result job =
          some (Except.error
            (CrucibleError.IoError
              (job.state_count.error + job.state_count.skipped))) ↔
        job.state_count.error = 3) ∧
      (Downstairs.result job = some (Except.ok ()) ↔
        ¬ job.state_count.error = 3)) ∧
    (isLiveRepairOp job.work = true →
      (Downstairs.result job =
          some (Except.error
            (CrucibleError.IoError
              (job.state_count.error + job.state_count.skipped))) ↔
        (1 ≤ job.state_count.error ∨ 1 < job.state_count.skipped)) ∧
      (Downstairs.result job = some (Except.ok ()) ↔
        ¬ (1 ≤ job.state_count.error ∨ 1 < job.state_count.skipped))) := by
  constructor
  · rintro ⟨d, rs, hw⟩
    have hres :
        Downstairs.result job =
          if job.state_count.error = 3 then
            some (Except.error
              (CrucibleError.IoError
                (job.state_count.error + job.state_count.skipped)))
          else some (Except.ok ()) := by
      simp [Downstairs.result, hw]
    by_cases h : job.state_count.error = 3 <;> simp [hres, h]
  · intro hop
    have hres :
        Downstairs.result job =
          if 1 ≤ job.state_count.error ∨ 1 < job.state_count.skipped then
            some (Except.error
              (CrucibleError.IoError
                (job.state_count.error + job.state_count.skipped)))
          else some (Except.ok ()) := by
      cases hw : job.work <;> simp [hw, isLiveRepairOp] at hop <;>
        simp [Downstairs.result, hw] <;>
        by_cases h : 1 ≤ job.state_count.error ∨ 1 < job.state_count.skipped <;>
        simp [h] <;> omega
    by_cases h : 1 ≤ job.state_count.error ∨ 1 < job.state_count.skipped <;>
      simp [hres, h]

/-- Witness for the result rule: a read that errored on all three clients
and a live-repair no-op skipped on two clients both surface an
`IoError`. -/
theorem result_io_error_rule_witness :
    Downstairs.result readJobAllErr =
      some (Except.error
        (CrucibleError.IoError
          (readJobAllErr.state_count.error +
            readJobAllErr.state_count.skipped))) ∧
    Downstairs.result noopJobTwoSkips =
      some (Except.error
        (CrucibleError.IoError
          (noopJobTwoSkips.state_count.error +
            noopJobTwoSkips.state_count.skipped))) :=
  ⟨((result_io_error_rule readJobAllErr).1 ⟨[], [⟨0, 0⟩], rfl⟩).1.mpr
      (by decide),
    ((result_io_error_rule noopJobTwoSkips).2 (by decide)).1.mpr
      (by decide)⟩

/-! ## C10: idempotent reservation and retrieval of repair ids -/

/-- C10: reserving repair ids is idempotent per extent — when ids are
already reserved for the extent, `reserve_repair_ids_for_extent` leaves
the whole coordinator (including the reserved-id map and the `next_id`
counter) unchanged — and `get_repair_ids` returns exactly the reserved
tuple while removing it from the map. -/
theorem reserve_repair_ids_idempotent (ds : Downstairs)
    (r : LiveRepairData) (eid : Nat) (ids : ExtentRepairIDs)
    (deps : List JobId)
    (hrep : ds.repair = some r)
    (hnd : (r.repair_job_ids.map (·.1)).Nodup)
    (hfind : mapFind eid r.repair_job_ids = some (ids, deps)) :
    ds.reserve_repair_ids_for_extent eid = some ds ∧
    ds.get_repair_ids eid =
      ((ids, deps),
        { ds with
            repair :=
              some { r with
                repair_job_ids := mapRemove eid r.repair_job_ids } }) ∧
    mapFind eid (mapRemove eid r.repair_job_ids) = none := by
  refine ⟨?_, ?_, mapFind_remove_self eid _ hnd⟩
  · simp [Downstairs.reserve_repair_ids_for_extent, hrep, hfind]
  · simp [Downstairs.get_repair_ids, hrep, hfind]

/-- Witness: in `reservedDs` the tuple `(1004, 1005, 1006, 1007)` is
reserved for extent 2; reserving again changes nothing and retrieval
returns and consumes it. -/
theorem reserve_repair_ids_idempotent_witness :
    reservedDs.reserve_repair_ids_for_extent 2 = some reservedDs ∧
    (reservedDs.get_repair_ids 2).1 =
      (⟨1004, 1005, 1006, 1007⟩, [1003]) := by
  have h :=
    reserve_repair_ids_idempotent reservedDs
      ⟨3, [1], 0, false, 0, 1000,
        [(2, (⟨1004, 1005, 1006, 1007⟩, [1003]))],
        LiveRepairState.Noop 1002 1003⟩
      2 ⟨1004, 1005, 1006, 1007⟩ [1003] rfl (by decide) (by decide)
  exact ⟨h.1, by rw [h.2.1]⟩

/-! ## C6: the generation check of collate -/

/-- C6 counterexample: with every reported generation 0 the computed
`max_gen` is 1, and a guest-supplied generation of exactly `max_gen = 1`
*passes* the check (the claim requires failure for generation ≤
`max_gen`). -/
theorem collate_gen_equal_passes :
    Downstairs.collate_gen_check collateDs 1 = some (Except.ok (1, 1)) :=
  rfl

/-- C6 (amended): `max_gen` is one plus the maximum generation reported
over all extents by the three clients, and activation fails with
`GenerationNumberTooLow` exactly when the guest generation is zero or
*strictly below* `max_gen`; every generation at or above `max_gen`
passes. -/
theorem collate_gen_check_rule (ds : Downstairs)
    (r0 r1 r2 : RegionMetadata) (g0 g1 g2 f0 f1 f2 gen : Nat)
    (hm0 : ds.clients.c0.region_metadata = some r0)
    (hm1 : ds.clients.c1.region_metadata = some r1)
    (hm2 : ds.clients.c2.region_metadata = some r2)
    (hg0 : r0.generation.max? = some g0)
    (hg1 : r1.generation.max? = some g1)
    (hg2 : r2.generation.max? = some g2)
    (hf0 : r0.flush_numbers.max? = some f0)
    (hf1 : r1.flush_numbers.max? = some f1)
    (hf2 : r2.flush_numbers.max? = some f2) :
    (Downstairs.collate_gen_check ds gen =
        some (Except.error
          (CrucibleError.GenerationNumberTooLow
            (1 + max g0 (max g1 g2)) gen)) ↔
      (gen = 0 ∨ gen < 1 + max g0 (max g1 g2))) ∧
    (Downstairs.collate_gen_check ds gen =
        some (Except.ok
          (1 + max f0 (max f1 f2), 1 + max g0 (max g1 g2))) ↔
      (gen ≠ 0 ∧ 1 + max g0 (max g1 g2) ≤ gen)) := by
  have step :
      ∀ (c : DownstairsClient) (rest : List DownstairsClient)
        (r : RegionMetadata) (f g mf mg : Nat),
        c.region_metadata = some r → r.flush_numbers.max? = some f →
        r.generation.max? = some g →
        Downstairs.collateScan (c :: rest) mf mg =
          Downstairs.collateScan rest (max mf (f + 1)) (max mg (g + 1)) := by
    intro c rest r f g mf mg hm hf hg
    simp only [Downstairs.collateScan, hm, hf, hg]
    congr 1 <;> (split <;> omega)
  have hscan :
      Downstairs.collateScan ds.clients.toList 0 0 =
        some (1 + max f0 (max f1 f2), 1 + max g0 (max g1 g2)) := by
    rw [ClientData.toList, step _ _ _ _ _ _ _ hm0 hf0 hg0,
      step _ _ _ _ _ _ _ hm1 hf1 hg1, step _ _ _ _ _ _ _ hm2 hf2 hg2]
    simp only [Downstairs.collateScan, Option.some.injEq, Prod.mk.injEq]
    constructor <;> omega
  by_cases h0 : gen = 0
  · subst h0
    simp [Downstairs.collate_gen_check, hscan]
  · by_cases hlt : gen < 1 + max g0 (max g1 g2) <;>
      simp [Downstairs.collate_gen_check, hscan, h0, hlt] <;> omega

/-- Witness for the amended generation check: in `collateDs`
(`max_gen = 1`), generation 1 passes and generation 0 fails. -/
theorem collate_gen_check_rule_witness :
    Downstairs.collate_gen_check collateDs 1 =
      some (Except.ok (1 + max 0 (max 0 0), 1 + max 0 (max 0 0))) ∧
    Downstairs.collate_gen_check collateDs 0 =
      some (Except.error
        (CrucibleError.GenerationNumberTooLow (1 + max 0 (max 0 0)) 0)) :=
  ⟨(collate_gen_check_rule collateDs ⟨[0], [0], [false]⟩ ⟨[0], [0], [false]⟩
        ⟨[0], [0], [false]⟩ 0 0 0 0 0 0 1 rfl rfl rfl rfl rfl rfl rfl rfl
        rfl).2.mpr
      (by decide),
    (collate_gen_check_rule collateDs ⟨[0], [0], [false]⟩ ⟨[0], [0], [false]⟩
        ⟨[0], [0], [false]⟩ 0 0 0 0 0 0 0 rfl rfl rfl rfl rfl rfl rfl rfl
        rfl).1.mpr
      (by decide)⟩

/-! ## C9: reconciliation expansion -/

theorem convertLoop_spec (clients : ClientData DownstairsClient)
    (addrOf : Fin 3 → Nat) (mf mg : Nat)
    (haddr : ∀ c : Fin 3, (clients.get c).repair_addr = some (addrOf c)) :
    ∀ (l : List (Nat × ExtentFix)) (rep : Nat) (acc : List ReconcileOp),
      Downstairs.convertLoop clients mf mg l rep acc =
        some (acc ++ specReconcileExpansion addrOf mf mg l rep) := by
  intro l
  induction l with
  | nil => intro rep acc; simp [Downstairs.convertLoop,
      specReconcileExpansion]
  | cons p rest ih =>
    intro rep acc
    obtain ⟨ext, ef⟩ := p
    simp [Downstairs.convertLoop, specReconcileExpansion, haddr ef.source,
      ih]

/-- C9: `convert_rc_to_messages` expands every mend entry into exactly the
four messages `ExtentFlush(source, max flush/gen) → ExtentClose →
ExtentRepair(source → dests) → ExtentReopen`, appended consecutively to
`reconcile_task_list` with the `ReconciliationId` increasing by one per
message (as `specReconcileExpansion` spells out). -/
theorem convert_rc_to_messages_spec (ds : Downstairs)
    (addrOf : Fin 3 → Nat) (rec_list : List (Nat × ExtentFix))
    (mf mg : Nat)
    (haddr : ∀ c : Fin 3, (ds.clients.get c).repair_addr = some (addrOf c)) :
    ds.convert_rc_to_messages rec_list mf mg =
      some { ds with
        reconcile_task_list :=
          ds.reconcile_task_list ++
            specReconcileExpansion addrOf mf mg rec_list 0 } := by
  simp [Downstairs.convert_rc_to_messages,
    convertLoop_spec ds.clients addrOf mf mg haddr]

/-- Witness: expanding the two-entry `mendList` from the fresh
coordinator. -/
theorem convert_rc_to_messages_spec_witness :
    Downstairs.convert_rc_to_messages exDs mendList 8 5 =
      some { exDs with
        reconcile_task_list :=
          specReconcileExpansion (fun _ => 7) 8 5 mendList 0 } := by
  have h :=
    convert_rc_to_messages_spec exDs (fun _ => 7) mendList 8 5
      (by intro c; fin_cases c <;> rfl)
  simpa using h

/-! ## Shared lemmas about enqueue and repair-id reservation -/

theorem set_all_three (d : ClientData α) (a b c : α) :
    ((d.set 0 a).set 1 b).set 2 c = ⟨a, b, c⟩ := rfl

/-- The per-client enqueue loop leaves id/work/flags intact, records the
three decided states on the job, and counts the skips. -/
theorem enqueueClients_job (io : DownstairsJob)
    (clients : ClientData DownstairsClient) (lre : Option Nat) :
    ∃ s0 s1 s2 cl,
      Downstairs.enqueueClients io clients lre =
        (cl, { io with state := ⟨s0, s1, s2⟩ },
          [s0, s1, s2].countP (fun s => s = IOState.Skipped)) := by
  unfold Downstairs.enqueueClients
  rcases h0 :
    clients.c0.enqueueJob io.ds_id io.work.touchedExtents lre with ⟨c0, s0⟩
  rcases h1 :
    clients.c1.enqueueJob io.ds_id io.work.touchedExtents lre with ⟨c1, s1⟩
  rcases h2 :
    clients.c2.enqueueJob io.ds_id io.work.touchedExtents lre with ⟨c2, s2⟩
  refine ⟨s0, s1, s2, ⟨c0, c1, c2⟩, ?_⟩
  simp [h0, h1, h2, set_all_three]

/-- `Downstairs::enqueue` of a not-yet-acked job always succeeds: the job
lands in `ds_active` with its three decided client states, and it is in
`ackable_work` afterwards exactly when it is a bare `Write` or was skipped
on all three clients (or was already there). -/
theorem enqueue_spec (ds : Downstairs) (io : DownstairsJob)
    (hack : io.acked = false) :
    ∃ ds' job, ds.enqueue io = some ds' ∧
      ds'.ds_active.get? io.ds_id = some job ∧
      job.work = io.work ∧ job.acked = false ∧ job.ds_id = io.ds_id ∧
      ds'.repair = ds.repair ∧ ds'.next_id = ds.next_id ∧
      (∀ x, x ∈ ds'.ackable_work ↔
        ((x = io.ds_id ∧
            (io.work.isBareWrite = true ∨
              job.state_count.skipped = 3)) ∨
          x ∈ ds.ackable_work)) := by
  obtain ⟨s0, s1, s2, cl, he⟩ :=
    enqueueClients_job io ds.clients ds.last_repair_extent
  have hskip :
      ({ io with state := ⟨s0, s1, s2⟩ } : DownstairsJob
          ).state_count.skipped =
        [s0, s1, s2].countP (fun s => s = IOState.Skipped) := by
    have := tally_skipped [s0, s1, s2] ⟨0, 0, 0, 0⟩
    simpa [DownstairsJob.state_count, ClientData.toList] using this
  have henq : ds.enqueue io =
      some { ds with
        clients := cl
        write_bytes_outstanding :=
          match io.work with
          | IOop.Write _ ws =>
            ds.write_bytes_outstanding +
              (ws.map (·.data.length)).foldl (· + ·) 0
          | IOop.WriteUnwritten _ ws =>
            ds.write_bytes_outstanding +
              (ws.map (·.data.length)).foldl (· + ·) 0
          | _ => ds.write_bytes_outstanding
        ds_active :=
          ds.ds_active.insert io.ds_id { io with state := ⟨s0, s1, s2⟩ }
        ackable_work :=
          if [s0, s1, s2].countP (fun s => s = IOState.Skipped) = 3 ∨
              io.work.isBareWrite = true then
            setInsert io.ds_id ds.ackable_work
          else ds.ackable_work } := by
    unfold Downstairs.enqueue
    rw [he]
    simp only [hack, Bool.or_eq_true, decide_eq_true_eq]
    split_ifs <;> simp_all
  refine ⟨_, { io with state := ⟨s0, s1, s2⟩ }, henq, ?_, rfl, hack, rfl,
    rfl, rfl, ?_⟩
  · simp only [ActiveJobs.get?, ActiveJobs.insert]
    exact mapFind_insert_self _ _ _
  · intro x
    by_cases hcond :
        ([s0, s1, s2].countP (fun s => s = IOState.Skipped) = 3 ∨
          io.work.isBareWrite = true)
    · simp only [if_pos hcond, mem_setInsert]
      constructor
      · rintro (h | h)
        · exact Or.inl ⟨h, by rw [hskip]; tauto⟩
        · exact Or.inr h
      · rintro (⟨h, _⟩ | h)
        · exact Or.inl h
        · exact Or.inr h
    · simp only [if_neg hcond]
      constructor
      · intro h
        exact Or.inr h
      · rintro (⟨hx, hor⟩ | h)
        · exfalso
          rw [hskip] at hor
          tauto
        · exact h

/-- `reserve_repair_ids_for_extent` never touches the job list, clients,
or ackable work, and only moves `next_id` forward. -/
theorem reserve_preserves (ds ds' : Downstairs) (eid : Nat)
    (h : ds.reserve_repair_ids_for_extent eid = some ds') :
    ds'.ackable_work = ds.ackable_work ∧ ds.next_id ≤ ds'.next_id ∧
      ds'.ds_active.jobs = ds.ds_active.jobs ∧
      ds'.clients = ds.clients ∧
      ds'.write_bytes_outstanding = ds.write_bytes_outstanding := by
  unfold Downstairs.reserve_repair_ids_for_extent at h
  cases hrep : ds.repair with
  | none => rw [hrep] at h; cases h
  | some r =>
    rw [hrep] at h
    simp only [] at h
    by_cases hmem : (mapFind eid r.repair_job_ids).isSome = true
    · rw [if_pos hmem] at h
      cases h
      simp
    · rw [if_neg hmem] at h
      simp only [Downstairs.nextId, ActiveJobs.deps_for_repair] at h
      cases h
      refine ⟨rfl, ?_, rfl, rfl, rfl⟩
      exact Nat.le_add_right ds.next_id 4

/-- The reservation loop of `check_repair_ids_for_range` preserves the job
list, clients, write bytes and ackable work, and only moves `next_id`
forward. -/
theorem checkRepairLoop_preserves (start stop : Nat) :
    ∀ (l : List Nat) (fut : Bool) (ds ds' : Downstairs),
      Downstairs.checkRepairLoop start stop l fut ds = some ds' →
      ds'.ackable_work = ds.ackable_work ∧ ds.next_id ≤ ds'.next_id ∧
        ds'.ds_active.jobs = ds.ds_active.jobs ∧
        ds'.clients = ds.clients ∧
        ds'.write_bytes_outstanding = ds.write_bytes_outstanding := by
  intro l
  induction l with
  | nil =>
    intro fut ds ds' h
    cases h
    simp
  | cons e rest ih =>
    intro fut ds ds' h
    unfold Downstairs.checkRepairLoop at h
    split at h
    · exact ih true ds ds' h
    · split at h
      · cases hr : ds.reserve_repair_ids_for_extent e with
        | none => rw [hr] at h; cases h
        | some ds1 =>
          rw [hr] at h
          obtain ⟨ha, hn, hj, hc, hw⟩ := reserve_preserves ds ds1 e hr
          obtain ⟨ha', hn', hj', hc', hw'⟩ := ih true ds1 ds' h
          exact ⟨ha' ▸ ha, le_trans hn hn', hj' ▸ hj, hc' ▸ hc,
            hw' ▸ hw⟩
      · exact ih fut ds ds' h

/-- `check_repair_ids_for_range` preserves everything except the
repair-reservation bookkeeping. -/
theorem check_repair_preserves (ds ds' : Downstairs)
    (blocks : ImpactedBlocks)
    (h : ds.check_repair_ids_for_range blocks = some ds') :
    ds'.ackable_work = ds.ackable_work ∧ ds.next_id ≤ ds'.next_id ∧
      ds'.ds_active.jobs = ds.ds_active.jobs ∧
      ds'.clients = ds.clients ∧
      ds'.write_bytes_outstanding = ds.write_bytes_outstanding := by
  unfold Downstairs.check_repair_ids_for_range at h
  split at h
  · cases h
  · cases h
    simp
  · exact checkRepairLoop_preserves _ _ _ _ _ _ h

/-! ## C2: fast-ack at submission -/

/-- C2 counterexample: a guest `WriteUnwritten` submitted through
`submit_write` on a healthy coordinator is *not* put into `ackable_work`
at submission (the claim asserts both variants are). -/
theorem write_unwritten_not_fast_acked :
    Downstairs.submit_write exDs 10 (ImpactedBlocks.range 0 0)
        [⟨0, 0, [1, 2]⟩] true = some (wuDs, 1000) ∧
      ¬ 1000 ∈ wuDs.ackable_work := by
  constructor
  · decide
  · decide

/-- C2 (amended): a job submitted via `submit_write` is marked ackable
immediately at submission exactly when it is the `Write` variant or was
skipped on all three clients; a `WriteUnwritten` that some client will
execute is not ackable at submission. -/
theorem submit_write_ackable_iff (ds ds' : Downstairs) (gid : Nat)
    (blocks : ImpactedBlocks) (writes : List BlockWrite) (wu : Bool)
    (ds_id : JobId)
    (hfresh : ∀ x ∈ ds.ackable_work, x < ds.next_id)
    (h : ds.submit_write gid blocks writes wu = some (ds', ds_id)) :
    ∃ job, ds'.ds_active.get? ds_id = some job ∧
      (ds_id ∈ ds'.ackable_work ↔
        (wu = false ∨ job.state_count.skipped = 3)) := by
  unfold Downstairs.submit_write at h
  cases hc : ds.check_repair_ids_for_range blocks with
  | none => rw [hc] at h; cases h
  | some ds1 =>
    rw [hc] at h
    obtain ⟨ha1, hn1, _, _, _⟩ := check_repair_preserves ds ds1 blocks hc
    simp only [Downstairs.nextId] at h
    set io : DownstairsJob :=
      ⟨ds1.next_id, gid,
        if wu then
          IOop.WriteUnwritten
            (({ ds1 with next_id := ds1.next_id + 1
                } : Downstairs).ds_active.deps_for_write ds1.next_id blocks)
            writes
        else
          IOop.Write
            (({ ds1 with next_id := ds1.next_id + 1
                } : Downstairs).ds_active.deps_for_write ds1.next_id blocks)
            writes,
        ClientData.new IOState.New, false, false, none, []⟩ with hio
    obtain ⟨ds2, job, henq, hget, hwork, hjack, hjid, _, _, hmem⟩ :=
      enqueue_spec { ds1 with next_id := ds1.next_id + 1 } io rfl
    rw [henq] at h
    cases h
    refine ⟨job, hget, ?_⟩
    rw [hmem]
    have hbare : io.work.isBareWrite = (!wu) := by
      cases wu <;> simp [hio, IOop.isBareWrite]
    have hnot : ¬ io.ds_id ∈ ds1.ackable_work := by
      intro hmem'
      rw [ha1] at hmem'
      have hlt := hfresh _ hmem'
      have hid : io.ds_id = ds1.next_id := by rw [hio]
      rw [hid] at hlt
      exact absurd hlt (Nat.not_lt.mpr hn1)
    constructor
    · rintro (⟨_, hor⟩ | hin)
      · rcases hor with hb | hsk
        · left
          rw [hbare] at hb
          cases wu
          · rfl
          · cases hb
        · right
          exact hsk
      · exact absurd hin hnot
    · intro hor
      refine Or.inl ⟨rfl, ?_⟩
      rcases hor with hw | hsk
      · left
        rw [hbare, hw]
        rfl
      · right
        exact hsk

/-! ## C3: the flush acknowledgement rule -/

/-- C3 counterexample: the non-snapshot flush of `flushDs` is *not*
ackable after the first success, but *is* ackable after the second — at
which point only two of the three clients are terminal (done = 2, one
still active), contradicting the claim that it becomes ackable exactly at
skipped + error + done = 3. -/
theorem flush_ackable_at_two_dones :
    (flushStep1.map (fun ds => ds.ackable_work.contains 1000)) =
        some false ∧
      (flushStep2.map
          (fun ds =>
            (ds.ackable_work.contains 1000,
              (ds.ds_active.get? 1000).map
                (fun j =>
                  (j.state_count.done, j.state_count.active, j.acked))))) =
        some (true, some (2, 1, false)) := by
  constructor
  · decide
  · decide

/-- For every flush job, the guest result is success iff
skipped + error ≤ 1. -/
theorem flush_result_rule (j : DownstairsJob) (deps : List JobId)
    (fn gn : Nat) (snap : Option SnapshotDetails) (el : Option Nat)
    (hw : j.work = IOop.Flush deps fn gn snap el) :
    Downstairs.result j = some (Except.ok ()) ↔
      j.state_count.skipped + j.state_count.error ≤ 1 := by
  simp only [Downstairs.result, hw]
  split_ifs with hb
  · simp only [decide_eq_true_eq] at hb
    constructor
    · intro h
      simp at h
    · intro h
      exact absurd h (by omega)
  · simp only [decide_eq_true_eq, Nat.not_lt] at hb
    constructor
    · intro _
      exact hb
    · intro _
      rfl

/-- C3 (amended): for a non-snapshot flush that is not yet acked and not
yet ackable, a processed completion makes it ackable exactly when it is
the second success or when all three clients are now terminal; and the
result a flush returns to the guest is success iff
skipped + error ≤ 1. -/
theorem flush_ack_rule_amended (ds : Downstairs) (ds_id : JobId)
    (cid : Fin 3) (res : Except CrucibleError (List Nat))
    (up : UpstairsState) (ei : Option ExtentInfo) (job : DownstairsJob)
    (deps : List JobId) (fn gn : Nat) (el : Option Nat)
    (hget : ds.ds_active.get? ds_id = some job)
    (hwork : job.work = IOop.Flush deps fn gn none el)
    (hack : job.acked = false)
    (hnot : ¬ ds_id ∈ ds.ackable_work) :
    ∃ ds' job', ds.process_io_completion_inner ds_id cid res up ei =
        some ds' ∧
      ds'.ds_active.get? ds_id = some job' ∧
      job'.state =
        job.state.set cid
          (match res with
            | Except.ok _ => IOState.Done
            | Except.error e => IOState.Error e) ∧
      (ds_id ∈ ds'.ackable_work ↔
        (((∃ v, res = Except.ok v) ∧ job'.state_count.done = 2) ∨
          job'.state_count.error + job'.state_count.skipped +
              job'.state_count.done = 3)) ∧
      (Downstairs.result job' = some (Except.ok ()) ↔
        job'.state_count.skipped + job'.state_count.error ≤ 1) := by
  unfold Downstairs.process_io_completion_inner
  rw [hget]
  simp only []
  cases res with
  | error e =>
    rcases hpc : (ds.clients.get cid).processJobCompletion cid job
        (Except.error e) ei with ⟨c1, j1, ack1⟩
    have hpc2 : c1 = ds.clients.get cid ∧
        j1 = { job with state := job.state.set cid (IOState.Error e) } ∧
        ack1 = false := by
      have h2 := hpc
      simp only [DownstairsClient.processJobCompletion,
        Prod.mk.injEq] at h2
      exact ⟨h2.1.symm, h2.2.1.symm, h2.2.2.symm⟩
    obtain ⟨hc1, hj1, hack1⟩ := hpc2
    have hjw : ({ job with state := job.state.set cid (IOState.Error e), acked := false } :
          DownstairsJob).work = IOop.Flush deps fn gn none el := hwork
    by_cases hsum :
        ({ job with state := job.state.set cid (IOState.Error e), acked := false } :
            DownstairsJob).state_count.error +
            ({ job with state := job.state.set cid (IOState.Error e), acked := false } :
              DownstairsJob).state_count.skipped +
            ({ job with state := job.state.set cid (IOState.Error e), acked := false } :
              DownstairsJob).state_count.done = 3
    · simp only [hj1, hack1, hack]
      rw [if_pos hsum, if_neg Bool.false_ne_true]
      refine ⟨_, _, rfl, ?_, ?_, ?_,
        flush_result_rule _ deps fn gn none el hjw⟩
      · simp only [ActiveJobs.get?]
        exact mapFind_insert_self _ _ _
      · rfl
      · simp only [mem_setInsert]
        constructor
        · intro _
          exact Or.inr hsum
        · intro _
          simp [mem_setInsert]
    · simp only [hj1, hack1, hack]
      rw [if_neg hsum, if_neg Bool.false_ne_true]
      refine ⟨_, _, rfl, ?_, ?_, ?_,
        flush_result_rule _ deps fn gn none el hjw⟩
      · simp only [ActiveJobs.get?]
        exact mapFind_insert_self _ _ _
      · rfl
      · constructor
        · intro hmem
          exact absurd hmem hnot
        · rintro (⟨⟨v, hv⟩, -⟩ | hs)
          · cases hv
          · exact absurd hs hsum
  | ok payload =>
    rcases hpc : (ds.clients.get cid).processJobCompletion cid job
        (Except.ok payload) ei with ⟨c1, j1, ack1⟩
    have hpc2 :
        j1 = { job with work := IOop.Flush deps fn gn none el, state := job.state.set cid IOState.Done } ∧
        ack1 = decide (({ job with work := IOop.Flush deps fn gn none el, state := job.state.set cid IOState.Done } : DownstairsJob).state_count.done = 2) := by
      have h2 := hpc
      simp only [DownstairsClient.processJobCompletion, hwork,
        Prod.mk.injEq] at h2
      obtain ⟨-, h2b, h2c⟩ := h2
      refine ⟨h2b.symm, ?_⟩
      rw [← h2c]
      simp [completionAckable]
    obtain ⟨hj1, hack1⟩ := hpc2
    have hjw : ({ job with work := IOop.Flush deps fn gn none el, state := job.state.set cid IOState.Done, acked := false } : DownstairsJob).work = IOop.Flush deps fn gn none el := rfl
    by_cases hdone : ({ job with work := IOop.Flush deps fn gn none el, state := job.state.set cid IOState.Done, acked := false } : DownstairsJob).state_count.done = 2
    · by_cases hsum : ({ job with work := IOop.Flush deps fn gn none el, state := job.state.set cid IOState.Done, acked := false } : DownstairsJob).state_count.error + ({ job with work := IOop.Flush deps fn gn none el, state := job.state.set cid IOState.Done, acked := false } : DownstairsJob).state_count.skipped + ({ job with work := IOop.Flush deps fn gn none el, state := job.state.set cid IOState.Done, acked := false } : DownstairsJob).state_count.done = 3
      · have hd2 : 
            (decide (({ job with work := IOop.Flush deps fn gn none el, state := job.state.set cid IOState.Done, acked := false } : DownstairsJob).state_count.done = 2) = true) := by
          simp [hdone]
        simp only [hj1, hack1, hack]
        rw [if_neg Bool.false_ne_true, if_pos hsum, if_pos hd2]
        refine ⟨_, _, rfl, ?_, ?_, ?_,
          flush_result_rule _ deps fn gn none el hjw⟩
        · simp only [ActiveJobs.get?]
          exact mapFind_insert_self _ _ _
        · rfl
        · constructor
          · intro _
            exact Or.inl ⟨⟨payload, rfl⟩, hdone⟩
          · intro _
            simp [mem_setInsert]
      · have hd2 : 
            (decide (({ job with work := IOop.Flush deps fn gn none el, state := job.state.set cid IOState.Done, acked := false } : DownstairsJob).state_count.done = 2) = true) := by
          simp [hdone]
        simp only [hj1, hack1, hack]
        rw [if_neg Bool.false_ne_true, if_neg hsum, if_pos hd2]
        refine ⟨_, _, rfl, ?_, ?_, ?_,
          flush_result_rule _ deps fn gn none el hjw⟩
        · simp only [ActiveJobs.get?]
          exact mapFind_insert_self _ _ _
        · rfl
        · constructor
          · intro _
            exact Or.inl ⟨⟨payload, rfl⟩, hdone⟩
          · intro _
            simp [mem_setInsert]
    · by_cases hsum : ({ job with work := IOop.Flush deps fn gn none el, state := job.state.set cid IOState.Done, acked := false } : DownstairsJob).state_count.error + ({ job with work := IOop.Flush deps fn gn none el, state := job.state.set cid IOState.Done, acked := false } : DownstairsJob).state_count.skipped + ({ job with work := IOop.Flush deps fn gn none el, state := job.state.set cid IOState.Done, acked := false } : DownstairsJob).state_count.done = 3
      · have hd2 : ¬
            (decide (({ job with work := IOop.Flush deps fn gn none el, state := job.state.set cid IOState.Done, acked := false } : DownstairsJob).state_count.done = 2) = true) := by
          simp [hdone]
        simp only [hj1, hack1, hack]
        rw [if_neg Bool.false_ne_true, if_pos hsum, if_neg hd2]
        refine ⟨_, _, rfl, ?_, ?_, ?_,
          flush_result_rule _ deps fn gn none el hjw⟩
        · simp only [ActiveJobs.get?]
          exact mapFind_insert_self _ _ _
        · rfl
        · constructor
          · intro _
            exact Or.inr hsum
          · intro _
            simp [mem_setInsert]
      · have hd2 : ¬
            (decide (({ job with work := IOop.Flush deps fn gn none el, state := job.state.set cid IOState.Done, acked := false } : DownstairsJob).state_count.done = 2) = true) := by
          simp [hdone]
        simp only [hj1, hack1, hack]
        rw [if_neg Bool.false_ne_true, if_neg hsum, if_neg hd2]
        refine ⟨_, _, rfl, ?_, ?_, ?_,
          flush_result_rule _ deps fn gn none el hjw⟩
        · simp only [ActiveJobs.get?]
          exact mapFind_insert_self _ _ _
        · rfl
        · constructor
          · intro hmem
            exact absurd hmem hnot
          · rintro (⟨-, hd⟩ | hs)
            · exact absurd hd hdone
            · exact absurd hs hsum
/-- Witness: the amended flush rule applied to `flushDs` at client 0. -/
theorem flush_ack_rule_amended_witness :
    ∃ ds' job',
      Downstairs.process_io_completion_inner flushDs 1000 0
          (Except.ok []) UpstairsState.Active none = some ds' ∧
      ds'.ds_active.get? 1000 = some job' ∧
      job'.state =
        (ClientData.new IOState.InProgress).set 0
          (match (Except.ok [] : Except CrucibleError (List Nat)) with
            | Except.ok _ => IOState.Done
            | Except.error e => IOState.Error e) ∧
      (1000 ∈ ds'.ackable_work ↔
        (((∃ v, (Except.ok [] : Except CrucibleError (List Nat)) =
              Except.ok v) ∧
            job'.state_count.done = 2) ∨
          job'.state_count.error + job'.state_count.skipped +
              job'.state_count.done = 3)) ∧
      (Downstairs.result job' = some (Except.ok ()) ↔
        job'.state_count.skipped + job'.state_count.error ≤ 1) :=
  flush_ack_rule_amended flushDs 1000 0 (Except.ok [])
    UpstairsState.Active none
    ⟨1000, 0, IOop.Flush [] 10 0 none none,
      ClientData.new IOState.InProgress, false, false, none, []⟩
    [] 10 0 none (by decide) rfl rfl (by decide)

/-- Witness: a plain `Write` on the fresh coordinator is ackable at
submission. -/
theorem submit_write_ackable_iff_witness :
    Downstairs.submit_write exDs 10 (ImpactedBlocks.range 0 0)
        [⟨0, 0, [1, 2]⟩] false = some (fastAckDs, 1000) ∧
      1000 ∈ fastAckDs.ackable_work := by
  have hsub :
      Downstairs.submit_write exDs 10 (ImpactedBlocks.range 0 0)
        [⟨0, 0, [1, 2]⟩] false = some (fastAckDs, 1000) := by decide
  refine ⟨hsub, ?_⟩
  obtain ⟨job, hget, hiff⟩ :=
    submit_write_ackable_iff exDs fastAckDs 10 (ImpactedBlocks.range 0 0)
      [⟨0, 0, [1, 2]⟩] false 1000 (by intro x hx; cases hx) hsub
  exact hiff.mpr (Or.inl rfl)

/-! ## C1: retirement on flush -/

theorem retiredBytes_cons_pos (f : JobId) (p : JobId × DownstairsJob)
    (rest : List (JobId × DownstairsJob)) (h : retirable f p = true) :
    retiredBytes f (p :: rest) = jobBytes p.2 + retiredBytes f rest := by
  simp [retiredBytes, List.filter_cons, h]

theorem retiredBytes_cons_neg (f : JobId) (p : JobId × DownstairsJob)
    (rest : List (JobId × DownstairsJob)) (h : retirable f p = false) :
    retiredBytes f (p :: rest) = retiredBytes f rest := by
  simp [retiredBytes, List.filter_cons, h]

/-- The first pass of `retire_check` retires exactly the `retirable` jobs:
walking a key-sorted job list whose jobs carry their own key and whose keys
are not already completed appends the retirable job ids to each of the
three accumulators. -/
theorem retireWalk_spec (f : JobId) (l : List (JobId × DownstairsJob)) :
    ∀ (retired completed cjobs : List JobId),
    List.Pairwise (fun a b => a.1 < b.1) l →
    (∀ p ∈ l, p.2.ds_id = p.1) →
    (∀ p ∈ l, p.1 ∉ completed) →
    Downstairs.retireWalk f l retired completed cjobs =
      some (retired ++ (l.filter (retirable f)).map Prod.fst,
        completed ++ (l.filter (retirable f)).map Prod.fst,
        cjobs ++ (l.filter (retirable f)).map Prod.fst) := by
  induction l with
  | nil =>
    intro retired completed cjobs _ _ _
    simp [Downstairs.retireWalk]
  | cons p rest ih =>
    intro retired completed cjobs hsort hwf hdisj
    obtain ⟨id, job⟩ := p
    rw [List.pairwise_cons] at hsort
    obtain ⟨hlt, hsort'⟩ := hsort
    simp only [Downstairs.retireWalk]
    by_cases hgt : id > f
    · rw [if_pos hgt]
      have hfil : ((id, job) :: rest).filter (retirable f) = [] := by
        rw [List.filter_eq_nil_iff]
        intro a ha
        rcases List.mem_cons.mp ha with h | h
        · subst h
          simp only [retirable, Bool.and_eq_true, decide_eq_true_eq]
          rintro ⟨⟨h1, -⟩, -⟩
          exact absurd h1 (Nat.not_le.mpr hgt)
        · simp only [retirable, Bool.and_eq_true, decide_eq_true_eq]
          rintro ⟨⟨h1, -⟩, -⟩
          exact absurd h1 (Nat.not_le.mpr (Nat.lt_trans hgt (hlt a h)))
      rw [hfil]
      simp
    · rw [if_neg hgt]
      by_cases hact :
          (decide (job.state_count.active ≠ 0) || !job.acked) = true
      · rw [if_pos hact]
        have hnr : retirable f (id, job) = false := by
          rw [Bool.or_eq_true] at hact
          rcases hact with h | h
          · simp only [decide_eq_true_eq] at h
            simp [retirable, h]
          · have haf : job.acked = false := by
              cases hja : job.acked
              · rfl
              · rw [hja] at h
                cases h
            simp [retirable, haf]
        rw [ih retired completed cjobs hsort'
          (fun q hq => hwf q (List.mem_cons_of_mem _ hq))
          (fun q hq => hdisj q (List.mem_cons_of_mem _ hq))]
        rw [List.filter_cons, if_neg (by simp [hnr])]
      · rw [if_neg hact]
        simp only [Bool.or_eq_true, decide_eq_true_eq,
          Bool.not_eq_true', not_or, ne_eq, not_not,
          Bool.not_eq_false] at hact
        obtain ⟨hact0, hacked⟩ := hact
        have hsum3 : job.state_count.error + job.state_count.skipped +
            job.state_count.done = 3 := by
          have ht := state_count_total job
          rw [hact0] at ht
          simpa using ht
        rw [if_neg (not_not_intro hsum3)]
        have hc : ¬ (completed.contains id = true) := by
          have hm := hdisj (id, job) (List.mem_cons_self _ _)
          simpa using hm
        rw [if_neg hc,
          if_neg (not_not_intro (hwf (id, job) (List.mem_cons_self _ _)))]
        have hr : retirable f (id, job) = true := by
          simp [retirable, hacked, hact0, Nat.not_lt.mp hgt]
        have hwf' : ∀ q ∈ rest, q.2.ds_id = q.1 :=
          fun q hq => hwf q (List.mem_cons_of_mem _ hq)
        have hdisj' : ∀ q ∈ rest, q.1 ∉ completed ++ [id] := by
          intro q hq hmem
          rcases List.mem_append.mp hmem with h | h
          · exact hdisj q (List.mem_cons_of_mem _ hq) h
          · have : q.1 = id := by simpa using h
            exact absurd (hlt q hq) (by rw [this]; exact lt_irrefl id)
        rw [ih (retired ++ [id]) (completed ++ [id]) (cjobs ++ [id])
          hsort' hwf' hdisj']
        rw [List.filter_cons, if_pos hr]
        simp [List.append_assoc]

/-- `retireRemove` ignores a leading job whose id it never removes. -/
theorem retireRemove_cons_ne (qk : JobId) (qv : DownstairsJob)
    (ids : List JobId) :
    ∀ (l : List (JobId × DownstairsJob)) (rr : List (Nat × JobId))
      (wbo : Nat),
    (∀ id ∈ ids, id ≠ qk) →
    Downstairs.retireRemove ids ⟨(qk, qv) :: l, rr⟩ wbo =
      (Downstairs.retireRemove ids ⟨l, rr⟩ wbo).map
        (fun r => (⟨(qk, qv) :: r.1.jobs, r.1.reserved_reopen⟩, r.2)) := by
  induction ids with
  | nil =>
    intro l rr wbo _
    simp [Downstairs.retireRemove]
  | cons id rest ih =>
    intro l rr wbo hne
    have hq : id ≠ qk := hne id (List.mem_cons_self _ _)
    have hne' : ∀ x ∈ rest, x ≠ qk :=
      fun x hx => hne x (List.mem_cons_of_mem _ hx)
    simp only [Downstairs.retireRemove, ActiveJobs.removeGet, mapFind,
      mapRemove]
    rw [if_neg hq, if_neg hq]
    cases hf : mapFind id l with
    | none => simp
    | some j =>
      simp only []
      split
      · split
        · exact ih (mapRemove id l) rr _ hne'
        · rfl
      · split
        · exact ih (mapRemove id l) rr _ hne'
        · rfl
      · exact ih (mapRemove id l) rr _ hne'

/-- The second pass of `retire_check`: removing the retirable job ids from
a key-sorted active map keeps exactly the non-retirable jobs and releases
the retired write bytes. -/
theorem retireRemove_filter (f : JobId)
    (l : List (JobId × DownstairsJob)) :
    ∀ (rr : List (Nat × JobId)) (wbo : Nat),
    List.Pairwise (fun a b => a.1 < b.1) l →
    retiredBytes f l ≤ wbo →
    Downstairs.retireRemove ((l.filter (retirable f)).map Prod.fst)
        ⟨l, rr⟩ wbo =
      some (⟨l.filter (fun p => !(retirable f p)), rr⟩,
        wbo - retiredBytes f l) := by
  induction l with
  | nil =>
    intro rr wbo _ _
    simp [Downstairs.retireRemove, retiredBytes]
  | cons p rest ih =>
    intro rr wbo hsort hwbo
    obtain ⟨k, v⟩ := p
    rw [List.pairwise_cons] at hsort
    obtain ⟨hlt, hsort'⟩ := hsort
    by_cases hr : retirable f (k, v) = true
    · rw [List.filter_cons, if_pos hr, List.map_cons]
      rw [retiredBytes_cons_pos f (k, v) rest hr] at hwbo
      have hrg : ActiveJobs.removeGet ⟨(k, v) :: rest, rr⟩ k =
          some (v, ⟨rest, rr⟩) := by
        simp [ActiveJobs.removeGet, mapFind, mapRemove]
      simp only [Downstairs.retireRemove, hrg]
      have hfc : ((k, v) :: rest).filter (fun p => !(retirable f p)) =
          rest.filter (fun p => !(retirable f p)) := by
        rw [List.filter_cons, if_neg (by simp [hr])]
      rw [hfc, retiredBytes_cons_pos f (k, v) rest hr]
      cases hw : v.work with
      | Write deps ws =>
        simp only []
        have hb : (ws.map (fun w => w.data.length)).foldl (· + ·) 0 =
            jobBytes (k, v).2 := by simp [jobBytes, hw]
        have hble : (ws.map (fun w => w.data.length)).foldl (· + ·) 0 ≤
            wbo := by
          rw [hb]
          omega
        have hrest : retiredBytes f rest ≤
            wbo - (ws.map (fun w => w.data.length)).foldl (· + ·) 0 := by
          rw [hb]
          omega
        rw [if_pos hble, ih rr _ hsort' hrest, Nat.sub_sub, hb]
      | WriteUnwritten deps ws =>
        simp only []
        have hb : (ws.map (fun w => w.data.length)).foldl (· + ·) 0 =
            jobBytes (k, v).2 := by simp [jobBytes, hw]
        have hble : (ws.map (fun w => w.data.length)).foldl (· + ·) 0 ≤
            wbo := by
          rw [hb]
          omega
        have hrest : retiredBytes f rest ≤
            wbo - (ws.map (fun w => w.data.length)).foldl (· + ·) 0 := by
          rw [hb]
          omega
        rw [if_pos hble, ih rr _ hsort' hrest, Nat.sub_sub, hb]
      | Read deps reqs =>
        simp only []
        have hb0 : jobBytes (k, v).2 = 0 := by simp [jobBytes, hw]
        have hrest : retiredBytes f rest ≤ wbo := by
          rw [hb0] at hwbo
          omega
        rw [ih rr wbo hsort' hrest, hb0]
        simp
      | Flush deps fn gn snap el =>
        simp only []
        have hb0 : jobBytes (k, v).2 = 0 := by simp [jobBytes, hw]
        have hrest : retiredBytes f rest ≤ wbo := by
          rw [hb0] at hwbo
          omega
        rw [ih rr wbo hsort' hrest, hb0]
        simp
      | ExtentClose deps e =>
        simp only []
        have hb0 : jobBytes (k, v).2 = 0 := by simp [jobBytes, hw]
        have hrest : retiredBytes f rest ≤ wbo := by
          rw [hb0] at hwbo
          omega
        rw [ih rr wbo hsort' hrest, hb0]
        simp
      | ExtentFlushClose deps e fn gn s r =>
        simp only []
        have hb0 : jobBytes (k, v).2 = 0 := by simp [jobBytes, hw]
        have hrest : retiredBytes f rest ≤ wbo := by
          rw [hb0] at hwbo
          omega
        rw [ih rr wbo hsort' hrest, hb0]
        simp
      | ExtentLiveRepair deps e sd sr a =>
        simp only []
        have hb0 : jobBytes (k, v).2 = 0 := by simp [jobBytes, hw]
        have hrest : retiredBytes f rest ≤ wbo := by
          rw [hb0] at hwbo
          omega
        rw [ih rr wbo hsort' hrest, hb0]
        simp
      | ExtentLiveReopen deps e =>
        simp only []
        have hb0 : jobBytes (k, v).2 = 0 := by simp [jobBytes, hw]
        have hrest : retiredBytes f rest ≤ wbo := by
          rw [hb0] at hwbo
          omega
        rw [ih rr wbo hsort' hrest, hb0]
        simp
      | ExtentLiveNoOp deps =>
        simp only []
        have hb0 : jobBytes (k, v).2 = 0 := by simp [jobBytes, hw]
        have hrest : retiredBytes f rest ≤ wbo := by
          rw [hb0] at hwbo
          omega
        rw [ih rr wbo hsort' hrest, hb0]
        simp
    · have hrf : retirable f (k, v) = false := by
        cases hx : retirable f (k, v)
        · rfl
        · exact absurd hx hr
      rw [List.filter_cons, if_neg hr]
      have hne : ∀ id ∈ (rest.filter (retirable f)).map Prod.fst,
          id ≠ k := by
        intro id hid
        obtain ⟨q, hq, hq1⟩ := List.mem_map.mp hid
        have hkq := hlt q (List.mem_of_mem_filter hq)
        subst hq1
        exact (Nat.ne_of_lt hkq).symm
      rw [retireRemove_cons_ne k v _ rest rr wbo hne]
      rw [ih rr wbo hsort'
        (by rw [retiredBytes_cons_neg f (k, v) rest hrf] at hwbo
            exact hwbo)]
      rw [retiredBytes_cons_neg f (k, v) rest hrf]
      rw [List.filter_cons, if_pos (by simp [hrf])]
      rfl

/-- C1: when the job at `f` is a flush that is terminal on all three
clients, `retire_check f` removes from the active list exactly the acked,
everywhere-terminal jobs with id at most `f`, appends each retired id to
the `completed` and `completed_jobs` rings, releases the payload bytes of
the retired writes from `write_bytes_outstanding`, and trims every
client's skipped set to ids at least `f` — so every job with id greater
than `f` stays on the queue untouched; on a non-flush job `retire_check`
changes nothing.  (Hypotheses: the active map is key-sorted with each job
carrying its own id, no active id is already completed, and the
outstanding write bytes cover the retired bytes — the invariants of the
Rust `BTreeMap` and byte accounting.) -/
theorem retire_check_spec (ds : Downstairs) (f : JobId)
    (job : DownstairsJob)
    (hget : ds.ds_active.get? f = some job)
    (hsort : List.Pairwise (fun a b => a.1 < b.1) ds.ds_active.jobs)
    (hwf : ∀ p ∈ ds.ds_active.jobs, p.2.ds_id = p.1)
    (hdisj : ∀ p ∈ ds.ds_active.jobs, p.1 ∉ ds.completed)
    (hwbo : retiredBytes f ds.ds_active.jobs ≤
      ds.write_bytes_outstanding) :
    (Downstairs.isFlushJob job = false →
      ds.retire_check f = some ds) ∧
    (Downstairs.isFlushJob job = true →
      job.state_count.active = 0 →
      ds.retire_check f = some { ds with
        ds_active :=
          ⟨ds.ds_active.jobs.filter (fun p => !(retirable f p)),
            ds.ds_active.reserved_reopen⟩
        completed := ds.completed ++
          (ds.ds_active.jobs.filter (retirable f)).map Prod.fst
        completed_jobs := ds.completed_jobs ++
          (ds.ds_active.jobs.filter (retirable f)).map Prod.fst
        write_bytes_outstanding := ds.write_bytes_outstanding -
          retiredBytes f ds.ds_active.jobs
        clients :=
          ⟨Downstairs.trimSkipped f ds.clients.c0,
            Downstairs.trimSkipped f ds.clients.c1,
            Downstairs.trimSkipped f ds.clients.c2⟩ }) := by
  constructor
  · intro hnf
    unfold Downstairs.retire_check
    rw [hget]
    simp [hnf]
  · intro hfl hact0
    have hsum3 : job.state_count.error + job.state_count.skipped +
        job.state_count.done = 3 := by
      have ht := state_count_total job
      rw [hact0] at ht
      simpa using ht
    have hmem : (f, job) ∈ ds.ds_active.jobs :=
      mem_of_mapFind f job ds.ds_active.jobs hget
    have hcf : ¬ (ds.completed.contains f = true) := by
      have := hdisj (f, job) hmem
      simpa using this
    unfold Downstairs.retire_check
    rw [hget]
    simp only [hfl, Bool.not_true, Bool.false_eq_true, if_false,
      if_neg (Bool.false_ne_true)]
    rw [if_pos hsum3, if_neg hcf, if_neg (not_not_intro hact0)]
    rw [retireWalk_spec f ds.ds_active.jobs [] ds.completed
      ds.completed_jobs hsort hwf hdisj]
    simp only [List.nil_append]
    rw [retireRemove_filter f ds.ds_active.jobs
      ds.ds_active.reserved_reopen ds.write_bytes_outstanding hsort hwbo]

/-- Witness: retiring on the everywhere-done, acked flush 1001 of
`retireDs` removes the write 1000 and the flush itself, keeps the
in-flight read 1002, pushes 1000 and 1001 into the completed rings,
releases the two write bytes, and trims client 0's skipped set from
`[998, 1001]` to `[1001]`. -/
theorem retire_check_spec_witness :
    retireDs.retire_check 1001 = some { retireDs with
      ds_active :=
        ⟨retireDs.ds_active.jobs.filter (fun p => !(retirable 1001 p)),
          retireDs.ds_active.reserved_reopen⟩
      completed := retireDs.completed ++
        (retireDs.ds_active.jobs.filter (retirable 1001)).map Prod.fst
      completed_jobs := retireDs.completed_jobs ++
        (retireDs.ds_active.jobs.filter (retirable 1001)).map Prod.fst
      write_bytes_outstanding := retireDs.write_bytes_outstanding -
        retiredBytes 1001 retireDs.ds_active.jobs
      clients :=
        ⟨Downstairs.trimSkipped 1001 retireDs.clients.c0,
          Downstairs.trimSkipped 1001 retireDs.clients.c1,
          Downstairs.trimSkipped 1001 retireDs.clients.c2⟩ } :=
  (retire_check_spec retireDs 1001
      ⟨1001, 1, IOop.Flush [1000] 10 0 none none,
        ClientData.new IOState.Done, true, false, none, []⟩
      (by decide) (by decide) (by decide) (by decide) (by decide)).2
    (by decide) (by decide)

/-! ## C4: replay on reconnecting an offline client -/

theorem clientGet_set (cs : ClientData α) (i : Fin 3) (c : α) :
    (cs.set i c).get i = c := by
  fin_cases i <;> rfl

/-- The walk of `replay_jobs`: when every job at or before the last flush
is `Done` on the client, the walk re-marks exactly the jobs after the last
flush as `New` replays and leaves the others alone. -/
theorem replayWalk_spec (cid : Fin 3) (lf : JobId)
    (l : List (JobId × DownstairsJob))
    (hdone : ∀ p ∈ l, p.1 ≤ lf → p.2.state.get cid = IOState.Done) :
    Downstairs.replayWalk cid lf l =
      some (l.map (fun p =>
        if p.1 ≤ lf then p
        else (p.1, DownstairsClient.replayJob cid p.2))) := by
  induction l with
  | nil => simp [Downstairs.replayWalk]
  | cons p rest ih =>
    obtain ⟨id, job⟩ := p
    have hrest : ∀ q ∈ rest, q.1 ≤ lf → q.2.state.get cid =
        IOState.Done :=
      fun q hq => hdone q (List.mem_cons_of_mem _ hq)
    simp only [Downstairs.replayWalk]
    rw [ih hrest]
    by_cases hle : id ≤ lf
    · rw [if_pos hle,
        if_pos (hdone (id, job) (List.mem_cons_self _ _) hle)]
      simp [hle]
    · rw [if_neg hle]
      simp [hle]

/-- C4: reinitializing a client that is `Offline` replays its pending
jobs: every active job with id strictly greater than the client's
`last_flush` is set back to `New` on that client with its `replay` flag
raised, and every job at or before `last_flush` — each of which is `Done`
on that client (the walk asserts it) — is left untouched. -/
theorem replay_on_reinitialize_offline (ds : Downstairs) (cid : Fin 3)
    (hoff : (ds.clients.get cid).state = DsState.Offline)
    (hdone : ∀ p ∈ ds.ds_active.jobs,
      p.1 ≤ (ds.clients.get cid).last_flush →
      p.2.state.get cid = IOState.Done) :
    ds.reinit cid = some { ds with
      clients :=
        ds.clients.set cid ((ds.clients.get cid).reinit)
      ds_active :=
        ⟨ds.ds_active.jobs.map (fun p =>
          if p.1 ≤ (ds.clients.get cid).last_flush then p
          else (p.1, DownstairsClient.replayJob cid p.2)),
          ds.ds_active.reserved_reopen⟩ } := by
  unfold Downstairs.reinit
  simp only [clientGet_set]
  rw [if_pos (by rw [DownstairsClient.reinit]; exact hoff)]
  unfold Downstairs.replay_jobs
  simp only [clientGet_set]
  have hlf : ((ds.clients.get cid).reinit).last_flush =
      (ds.clients.get cid).last_flush := rfl
  rw [hlf, replayWalk_spec cid (ds.clients.get cid).last_flush
    ds.ds_active.jobs hdone]

/-- Witness: reinitializing the offline client 1 of `replayDs` (its
`last_flush` is 1000) leaves the everywhere-done write 1000 untouched and
re-marks the read 1001 as a `New` replay on client 1. -/
theorem replay_on_reinitialize_offline_witness :
    replayDs.reinit 1 = some { replayDs with
      clients :=
        replayDs.clients.set 1 ((replayDs.clients.get 1).reinit)
      ds_active :=
        ⟨replayDs.ds_active.jobs.map (fun p =>
          if p.1 ≤ (replayDs.clients.get 1).last_flush then p
          else (p.1, DownstairsClient.replayJob 1 p.2)),
          replayDs.ds_active.reserved_reopen⟩ } :=
  replay_on_reinitialize_offline replayDs 1 (by decide) (by decide)

/-! ## C7: reservation of repair ids for spanning guest writes -/

theorem mem_extentList (lo hi e : Nat) :
    e ∈ (ImpactedBlocks.range lo hi).extentList ↔ lo ≤ e ∧ e ≤ hi := by
  simp only [ImpactedBlocks.extentList, List.mem_map, List.mem_range]
  constructor
  · rintro ⟨a, ha, rfl⟩
    omega
  · rintro ⟨h1, h2⟩
    exact ⟨e - lo, by omega, by omega⟩

theorem extentList_sorted (lo hi : Nat) :
    List.Pairwise (· < ·) (ImpactedBlocks.range lo hi).extentList := by
  simp only [ImpactedBlocks.extentList]
  exact List.Pairwise.map _ (fun a b h => by omega)
    (List.pairwise_lt_range _)

/-- Reserving an extent that already has reserved ids changes nothing. -/
theorem reserve_already (ds : Downstairs) (r : LiveRepairData) (e : Nat)
    (hrep : ds.repair = some r)
    (hs : (mapFind e r.repair_job_ids).isSome = true) :
    ds.reserve_repair_ids_for_extent e = some ds := by
  unfold Downstairs.reserve_repair_ids_for_extent
  rw [hrep]
  simp only []
  rw [if_pos hs]

/-- Reserving a so-far-unreserved extent stores four consecutive fresh job
ids for it, registers its reopen id in the dependency index, keeps every
existing reservation, moves `next_id` forward and leaves other extents'
reservations untouched. -/
theorem reserve_establishes (ds : Downstairs) (r : LiveRepairData)
    (e : Nat) (hrep : ds.repair = some r)
    (hn : mapFind e r.repair_job_ids = none) :
    ∃ ds1 r1, ds.reserve_repair_ids_for_extent e = some ds1 ∧
      ds1.repair = some r1 ∧
      hasReservedIds ds1 e ∧
      (∀ x, hasReservedIds ds x → hasReservedIds ds1 x) ∧
      ds.next_id ≤ ds1.next_id ∧
      (∀ x, x ≠ e →
        mapFind x r1.repair_job_ids = mapFind x r.repair_job_ids) := by
  unfold Downstairs.reserve_repair_ids_for_extent
  rw [hrep]
  simp only [Downstairs.nextId, ActiveJobs.deps_for_repair]
  rw [if_neg (by rw [hn]; simp)]
  refine ⟨_, _, rfl, rfl, ?_, ?_, ?_, ?_⟩
  · refine ⟨_, ds.next_id,
      (ds.ds_active.jobs.filter (fun p =>
        ActiveJobs.conflictsWithWrite p.2.work
          (ImpactedBlocks.range e e))).map (fun x => x.1),
      rfl, ?_, ?_, ?_⟩
    · rw [mapFind_insert_self]
    · exact Nat.le.refl
    · rw [mapFind_insert_self]
  · rintro x ⟨rx, c, dx, hrx, hfx, hcx, hix⟩
    rw [hrep] at hrx
    obtain rfl := Option.some.inj hrx
    have hxe : x ≠ e := by
      intro hx
      rw [hx, hn] at hfx
      cases hfx
    refine ⟨_, c, dx, rfl, ?_, ?_, ?_⟩
    · rw [mapFind_insert_ne x e _ _ hxe]
      exact hfx
    · exact Nat.lt_of_lt_of_le hcx (Nat.le_add_right ds.next_id 4)
    · rw [mapFind_insert_ne x e _ _ hxe]
      exact hix
  · exact Nat.le_add_right ds.next_id 4
  · intro x hxe
    exact mapFind_insert_ne x e _ _ hxe

/-- Once the reservation loop has seen the extent under repair, every
remaining impacted extent past the reserved range gets a reservation, and
reservations made earlier survive. -/
theorem checkRepairLoop_reserves_fut (start stop : Nat) :
    ∀ (rem : List Nat) (ds : Downstairs) (r : LiveRepairData),
    List.Pairwise (· < ·) rem →
    (∀ e ∈ rem, start < e) →
    ds.repair = some r →
    (∀ e ∈ rem, stop < e → mapFind e r.repair_job_ids = none) →
    ∃ ds', Downstairs.checkRepairLoop start stop rem true ds =
        some ds' ∧
      (∀ e ∈ rem, stop < e → hasReservedIds ds' e) ∧
      (∀ x, hasReservedIds ds x → hasReservedIds ds' x) := by
  intro rem
  induction rem with
  | nil =>
    intro ds r _ _ _ _
    exact ⟨ds, rfl, by simp, fun x h => h⟩
  | cons d rest ih =>
    intro ds r hpw hgt hrep hnone
    rw [List.pairwise_cons] at hpw
    obtain ⟨hdlt, hpw'⟩ := hpw
    have hd : start < d := hgt d (List.mem_cons_self _ _)
    have hgt' : ∀ e ∈ rest, start < e :=
      fun e he => hgt e (List.mem_cons_of_mem _ he)
    simp only [Downstairs.checkRepairLoop]
    rw [if_neg (by omega : ¬ (d = start))]
    rw [if_pos ⟨hd, Or.inr trivial⟩]
    by_cases hres : (mapFind d r.repair_job_ids).isSome = true
    · rw [reserve_already ds r d hrep hres]
      simp only []
      obtain ⟨ds', hloop, hres', hpres'⟩ := ih ds r hpw' hgt' hrep
        (fun e he hst => hnone e (List.mem_cons_of_mem _ he) hst)
      refine ⟨ds', hloop, ?_, hpres'⟩
      intro e he hst
      rcases List.mem_cons.mp he with rfl | he'
      · rw [hnone e (List.mem_cons_self _ _) hst] at hres
        cases hres
      · exact hres' e he' hst
    · have hn : mapFind d r.repair_job_ids = none := by
        cases hm : mapFind d r.repair_job_ids with
        | none => rfl
        | some v =>
          rw [hm] at hres
          exact absurd rfl hres
      obtain ⟨ds1, r1, heq, hrep1, hhas1, hpres1, hle1, hother⟩ :=
        reserve_establishes ds r d hrep hn
      rw [heq]
      simp only []
      have hnone1 : ∀ e ∈ rest, stop < e →
          mapFind e r1.repair_job_ids = none := by
        intro e he hst
        rw [hother e (by have := hdlt e he; omega)]
        exact hnone e (List.mem_cons_of_mem _ he) hst
      obtain ⟨ds', hloop, hres', hpres'⟩ :=
        ih ds1 r1 hpw' hgt' hrep1 hnone1
      refine ⟨ds', hloop, ?_, fun x hx => hpres' x (hpres1 x hx)⟩
      intro e he hst
      rcases List.mem_cons.mp he with rfl | he'
      · exact hpres' e hhas1
      · exact hres' e he' hst

/-- The reservation loop started before the extent under repair: as soon
as the walked range contains a trigger extent (the extent under repair or
one at or before the last reserved extent), every later impacted extent
past the reserved range ends up with reserved ids. -/
theorem checkRepairLoop_reserves (start stop : Nat) :
    ∀ (rem : List Nat) (ds : Downstairs) (r : LiveRepairData),
    List.Pairwise (· < ·) rem →
    ds.repair = some r →
    (∀ e ∈ rem, stop < e → mapFind e r.repair_job_ids = none) →
    (∀ e ∈ rem, stop < e →
      ∃ d ∈ rem, d < e ∧ start ≤ d ∧ d ≤ stop) →
    ∃ ds', Downstairs.checkRepairLoop start stop rem false ds =
        some ds' ∧
      ∀ e ∈ rem, stop < e → hasReservedIds ds' e := by
  intro rem
  induction rem with
  | nil =>
    intro ds r _ _ _ _
    exact ⟨ds, rfl, by simp⟩
  | cons d rest ih =>
    intro ds r hpw hrep hnone hfirst
    rw [List.pairwise_cons] at hpw
    obtain ⟨hdlt, hpw'⟩ := hpw
    simp only [Downstairs.checkRepairLoop]
    by_cases hds : d = start
    · subst hds
      rw [if_pos rfl]
      obtain ⟨ds', hloop, hres', -⟩ :=
        checkRepairLoop_reserves_fut d stop rest ds r hpw' hdlt hrep
          (fun e he hst => hnone e (List.mem_cons_of_mem _ he) hst)
      refine ⟨ds', hloop, ?_⟩
      intro e he hst
      rcases List.mem_cons.mp he with rfl | he'
      · obtain ⟨d', hd'mem, hlt', hge', hle'⟩ :=
          hfirst e (List.mem_cons_self _ _) hst
        exact ((by omega : False)).elim
      · exact hres' e he' hst
    · rw [if_neg hds]
      by_cases h1 : start < d
      · by_cases h2 : d ≤ stop
        · rw [if_pos ⟨h1, Or.inl h2⟩]
          by_cases hres : (mapFind d r.repair_job_ids).isSome = true
          · rw [reserve_already ds r d hrep hres]
            simp only []
            obtain ⟨ds', hloop, hres', -⟩ :=
              checkRepairLoop_reserves_fut start stop rest ds r hpw'
                (fun e he => by have := hdlt e he; omega) hrep
                (fun e he hst =>
                  hnone e (List.mem_cons_of_mem _ he) hst)
            refine ⟨ds', hloop, ?_⟩
            intro e he hst
            rcases List.mem_cons.mp he with rfl | he'
            · exact ((by omega : False)).elim
            · exact hres' e he' hst
          · have hn : mapFind d r.repair_job_ids = none := by
              cases hm : mapFind d r.repair_job_ids with
              | none => rfl
              | some v =>
                rw [hm] at hres
                exact absurd rfl hres
            obtain ⟨ds1, r1, heq, hrep1, hhas1, hpres1, hle1, hother⟩ :=
              reserve_establishes ds r d hrep hn
            rw [heq]
            simp only []
            have hnone1 : ∀ e ∈ rest, stop < e →
                mapFind e r1.repair_job_ids = none := by
              intro e he hst
              rw [hother e (by have := hdlt e he; omega)]
              exact hnone e (List.mem_cons_of_mem _ he) hst
            obtain ⟨ds', hloop, hres', hpres'⟩ :=
              checkRepairLoop_reserves_fut start stop rest ds1 r1 hpw'
                (fun e he => by have := hdlt e he; omega) hrep1 hnone1
            refine ⟨ds', hloop, ?_⟩
            intro e he hst
            rcases List.mem_cons.mp he with rfl | he'
            · exact ((by omega : False)).elim
            · exact hres' e he' hst
        · exfalso
          obtain ⟨d', hd'mem, hlt', hge', hle'⟩ :=
            hfirst d (List.mem_cons_self _ _) (by omega)
          rcases List.mem_cons.mp hd'mem with rfl | hd'r
          · omega
          · have := hdlt d' hd'r
            omega
      · rw [if_neg (by rintro ⟨hh, -⟩; exact h1 hh)]
        have hfirst' : ∀ e ∈ rest, stop < e →
            ∃ d' ∈ rest, d' < e ∧ start ≤ d' ∧ d' ≤ stop := by
          intro e he hst
          obtain ⟨d', hd'mem, hlt', hge', hle'⟩ :=
            hfirst e (List.mem_cons_of_mem _ he) hst
          rcases List.mem_cons.mp hd'mem with rfl | hd'r
          · exact ((by omega : False)).elim
          · exact ⟨d', hd'r, hlt', hge', hle'⟩
        obtain ⟨ds', hloop, hres'⟩ := ih ds r hpw' hrep
          (fun e he hst => hnone e (List.mem_cons_of_mem _ he) hst)
          hfirst'
        refine ⟨ds', hloop, ?_⟩
        intro e he hst
        rcases List.mem_cons.mp he with rfl | he'
        · obtain ⟨d', hd'mem, hlt', hge', hle'⟩ :=
            hfirst e (List.mem_cons_self _ _) hst
          exact ((by omega : False)).elim
        · exact hres' e he' hst

/-- `check_repair_ids_for_range` on a guest range that touches the extent
under repair (or any extent at or before the last reserved one) reserves
ids for every impacted extent past the reserved range. -/
theorem check_repair_reserved_range (ds : Downstairs)
    (r : LiveRepairData) (lim stop lo hi : Nat)
    (hrep : ds.repair = some r)
    (heur : ds.get_extent_under_repair = some (some (lim, stop)))
    (hls : lim ≤ stop) (htrig : lo ≤ stop)
    (hfresh : ∀ e, stop < e → mapFind e r.repair_job_ids = none) :
    ∃ ds1,
      ds.check_repair_ids_for_range (ImpactedBlocks.range lo hi) =
        some ds1 ∧
      ∀ e, stop < e → e ≤ hi → hasReservedIds ds1 e := by
  have hfirst : ∀ e ∈ (ImpactedBlocks.range lo hi).extentList,
      stop < e →
      ∃ d ∈ (ImpactedBlocks.range lo hi).extentList,
        d < e ∧ lim ≤ d ∧ d ≤ stop := by
    intro e he hst
    obtain ⟨hle, hhe⟩ := (mem_extentList lo hi e).mp he
    by_cases hll : lo ≤ lim
    · exact ⟨lim, (mem_extentList lo hi lim).mpr ⟨hll, by omega⟩,
        by omega, le_refl lim, hls⟩
    · exact ⟨lo, (mem_extentList lo hi lo).mpr ⟨le_refl lo, by omega⟩,
        by omega, by omega, htrig⟩
  obtain ⟨ds1, hloop, hres⟩ :=
    checkRepairLoop_reserves lim stop
      (ImpactedBlocks.range lo hi).extentList ds r
      (extentList_sorted lo hi) hrep
      (fun e he hst => hfresh e hst) hfirst
  refine ⟨ds1, ?_, ?_⟩
  · unfold Downstairs.check_repair_ids_for_range
    rw [heur]
    exact hloop
  · intro e hst hhi
    exact hres e ((mem_extentList lo hi e).mpr ⟨by omega, hhi⟩) hst

/-- C7: a guest write submitted during live repair whose extent range
touches the reserved region (it reaches at or below the last reserved
extent `stop`, here with the extent under repair at `lim ≤ stop`) gets,
for every impacted extent strictly past the reserved range, a reserved
4-tuple of consecutive job ids, all allocated before the write's own
JobId, with the reserved reopen id appearing in the write's dependency
list. -/
theorem repair_ids_reserved_for_spanning_write (ds ds' : Downstairs)
    (r : LiveRepairData) (lim stop lo hi : Nat) (gid : Nat)
    (writes : List BlockWrite) (wu : Bool) (ds_id : JobId)
    (hrep : ds.repair = some r)
    (heur : ds.get_extent_under_repair = some (some (lim, stop)))
    (hls : lim ≤ stop) (htrig : lo ≤ stop)
    (hfresh : ∀ e, stop < e → mapFind e r.repair_job_ids = none)
    (hsub : ds.submit_write gid (ImpactedBlocks.range lo hi) writes wu =
      some (ds', ds_id)) :
    ∃ job deps0, ds'.ds_active.get? ds_id = some job ∧
      job.work = (if wu then IOop.WriteUnwritten deps0 writes
        else IOop.Write deps0 writes) ∧
      ∀ e, stop < e → e ≤ hi →
        ∃ c deps r', ds'.repair = some r' ∧
          mapFind e r'.repair_job_ids =
            some (⟨c, c + 1, c + 2, c + 3⟩, deps) ∧
          c + 3 < ds_id ∧ (c + 3) ∈ deps0 := by
  obtain ⟨ds1, hcheck, hres⟩ :=
    check_repair_reserved_range ds r lim stop lo hi hrep heur hls htrig
      hfresh
  unfold Downstairs.submit_write at hsub
  rw [hcheck] at hsub
  simp only [Downstairs.nextId] at hsub
  set io : DownstairsJob :=
    ⟨ds1.next_id, gid,
      if wu then
        IOop.WriteUnwritten
          (({ ds1 with next_id := ds1.next_id + 1
              } : Downstairs).ds_active.deps_for_write ds1.next_id
            (ImpactedBlocks.range lo hi))
          writes
      else
        IOop.Write
          (({ ds1 with next_id := ds1.next_id + 1
              } : Downstairs).ds_active.deps_for_write ds1.next_id
            (ImpactedBlocks.range lo hi))
          writes,
      ClientData.new IOState.New, false, false, none, []⟩ with hio
  obtain ⟨ds2, job, henq, hget, hwork, hjack, hjid, hrep2, hnext2, -⟩ :=
    enqueue_spec { ds1 with next_id := ds1.next_id + 1 } io rfl
  rw [henq] at hsub
  cases hsub
  refine ⟨job,
    ({ ds1 with next_id := ds1.next_id + 1 } :
      Downstairs).ds_active.deps_for_write ds1.next_id
      (ImpactedBlocks.range lo hi),
    hget, ?_, ?_⟩
  · rw [hwork, hio]
  · intro e hst hhi
    obtain ⟨r1, c, deps, hr1, hfind, hlt, hidx⟩ := hres e hst hhi
    refine ⟨c, deps, r1, ?_, hfind, hlt, ?_⟩
    · rw [hrep2]
      exact hr1
    · show (c + 3) ∈ ({ ds1 with next_id := ds1.next_id + 1 } :
        Downstairs).ds_active.deps_for_write ds1.next_id
          (ImpactedBlocks.range lo hi)
      simp only [ActiveJobs.deps_for_write]
      refine List.mem_append.mpr (Or.inr ?_)
      refine List.mem_map.mpr ⟨(e, c + 3), List.mem_filter.mpr
        ⟨mem_of_mapFind e _ _ hidx, ?_⟩, rfl⟩
      simp only [ImpactedBlocks.containsExtent, Bool.and_eq_true,
        decide_eq_true_eq]
      omega

/-- Witness: on `repairDs` (extent 0 under repair, nothing reserved,
`next_id = 1004`) a one-byte guest write spanning extents 0–2 reserves
ids for extents 1 and 2 and lands as job 1012; in particular extent 2
holds the consecutive tuple `(1008, 1009, 1010, 1011)` and the write's
dependencies include the reserved reopen id 1011. -/
theorem repair_ids_reserved_for_spanning_write_witness :
    Downstairs.submit_write repairDs 10 (ImpactedBlocks.range 0 2)
        [⟨0, 0, [7]⟩] false = some (spanWriteDs, 1012) ∧
      ∃ job deps0, spanWriteDs.ds_active.get? 1012 = some job ∧
        job.work = IOop.Write deps0 [⟨0, 0, [7]⟩] ∧
        ∃ c deps r', spanWriteDs.repair = some r' ∧
          mapFind 2 r'.repair_job_ids =
            some (⟨c, c + 1, c + 2, c + 3⟩, deps) ∧
          c + 3 < 1012 ∧ (c + 3) ∈ deps0 := by
  have hsub : Downstairs.submit_write repairDs 10
      (ImpactedBlocks.range 0 2) [⟨0, 0, [7]⟩] false =
        some (spanWriteDs, 1012) := by decide
  refine ⟨hsub, ?_⟩
  obtain ⟨job, deps0, hget, hwork, hall⟩ :=
    repair_ids_reserved_for_spanning_write repairDs spanWriteDs
      ⟨3, [1], 0, false, 0, 1000, [], LiveRepairState.Closing 1000 1001
        1002 1003 1 2⟩
      0 0 0 2 10 [⟨0, 0, [7]⟩] false 1012 rfl (by decide) (le_refl 0)
      (le_refl 0) (fun e he => rfl) hsub
  obtain ⟨c, deps, r', hr', hfind, hlt, hmem⟩ :=
    hall 2 (by decide) (by decide)
  exact ⟨job, deps0, hget, hwork, c, deps, r', hr', hfind, hlt, hmem⟩

/-! ## C8: aborted live repair and the promised reserved ids -/

/-- C8: a live repair of extent 0 hits an error in its `Noop` phase while
extent 1 holds the reserved (promised) id tuple `(1004, 1005, 1006,
1007)`.  Driving `on_live_repair` through the error and the next
completion, the aborting repair moves on to extent 1 — but because the
repair data was taken out of `self.repair` for the duration of the call,
`get_repair_ids` finds no reservation and allocates *fresh* ids: the
no-ops are enqueued as jobs 1020 and 1023 (with 1021/1022 as the middle
ids and `next_id` advanced to 1024), while the promised tuple
`(1004, 1005, 1006, 1007)` is still sitting unconsumed in
`repair_job_ids`.  Jobs that were promised 1004–1007 as dependencies will
wait on ids that are never produced. -/
theorem abort_repair_skips_reserved_ids :
    abortRun.map (fun p =>
        p.1.repair.map (fun rep => rep.aborting_repair)) =
      some (some true) ∧
    abortRun.map (fun p => p.1.repair.map (fun rep => rep.state)) =
      some (some (LiveRepairState.Closing 1020 1021 1022 1023 11 12)) ∧
    abortRun.map (fun p =>
        p.1.repair.map (fun rep => mapFind 1 rep.repair_job_ids)) =
      some (some (some (⟨1004, 1005, 1006, 1007⟩, []))) ∧
    abortRun.map (fun p =>
        p.1.ds_active.jobs.map (fun q => (q.1, q.2.work))) =
      some [(1020, IOop.ExtentLiveNoOp []),
        (1023, IOop.ExtentLiveNoOp [1022])] ∧
    abortRun.map (fun p => p.1.next_id) = some 1024 :=
  ⟨by decide, by decide, by decide, by decide, by decide⟩

end Crucible
